import Mathlib

/-!
AuthContext: the in-memory authentication container.

A shallow embedding of `src/AuthContext.js`.  The provider keeps two pieces of
React state, `users` (an array of user objects) and `currentUser` (a user
object or `null`), and exposes `signUp`, `login`, `logout` and
`resetPassword`.

JavaScript objects have identity: `login` stores in `currentUser` the very
object found in `users`, and `resetPassword` assigns to the `password` field of
an object that the old array, the new array and possibly `currentUser` all
share.  The embedding therefore keeps an explicit object store: `heap` lists
every user object allocated so far, and `users` and `currentUser` hold
references (positions in `heap`).

Every call is taken to run against the state left by the previous one (each
call happens in its own render).  `String.prototype.toLowerCase` is a
parameter of the development, so every theorem holds for whatever case mapping
the engine implements; `asciiToLowerCase` is the instance used on concrete
inputs.

The form handlers of `src/LoginScreen.js`, `src/SignUpScreen.js` and
`src/ForgotPasswordScreen.js` follow, with the regular expressions they test
their fields against and a matcher for them.
-/

namespace AuthContext

/-- The object literal built at `signUp`:
`{ id: Date.now().toString(), firstName, lastName, email, password }`. -/
structure User where
  id : String
  firstName : String
  lastName : String
  email : String
  password : String
deriving DecidableEq, Repr

/-- The provider state: `useState([])` for `users`, `useState(null)` for
`currentUser`, over the store of the user objects allocated so far.  A
reference to a user object is its position in `heap`. -/
structure AuthState where
  heap : List User
  users : List Nat
  currentUser : Option Nat
deriving DecidableEq, Repr

/-- The state at mount: `users = []`, `currentUser = null`, nothing allocated. -/
def initial : AuthState :=
  { heap := [], users := [], currentUser := none }

/-- The contents of the `users` array, each reference read through the store. -/
def registry (s : AuthState) : List User :=
  s.users.filterMap (fun r => s.heap[r]?)

/-- The object `currentUser` refers to, if any. -/
def session (s : AuthState) : Option User :=
  s.currentUser.bind (fun r => s.heap[r]?)

/-- Every reference held by the state points at an allocated object, and the
`users` array holds no object twice. -/
def WellFormed (s : AuthState) : Prop :=
  (∀ r ∈ s.users, r < s.heap.length) ∧ s.users.Nodup ∧
    (∀ r ∈ s.currentUser, r < s.heap.length)

/-- The three ways `login` can end: the "User Not Found" alert, the
"Login Failed" alert, or `setCurrentUser(user)`. -/
inductive LoginOutcome where
  | userNotFound
  | wrongPassword
  | success
deriving DecidableEq, Repr

/-- ASCII case folding of a string; agrees with `toLowerCase` on ASCII text. -/
def asciiToLowerCase (s : String) : String :=
  ⟨s.data.map Char.toLower⟩

section Operations

variable (toLowerCase : String → String)

/-- The callback `u => u.email.toLowerCase() === email.toLowerCase()`. -/
def emailMatches (email : String) (u : User) : Bool :=
  toLowerCase u.email == toLowerCase email

/-- The same callback on a reference of the `users` array. -/
def refMatches (heap : List User) (email : String) (r : Nat) : Bool :=
  match heap[r]? with
  | some u => emailMatches toLowerCase email u
  | none => false

/-- The function `signUp(firstName, lastName, email, password)`, with `now` the
value `Date.now()` returns (milliseconds since the epoch; it is read only once
the duplicate check has passed).  The result is the returned boolean and the
next state. -/
def signUp (s : AuthState) (firstName lastName email password : String) (now : Nat) :
    Bool × AuthState :=
  match s.users.find? (refMatches toLowerCase s.heap email) with
  | some _ => (false, s)
  | none =>
    let newUser : User :=
      { id := toString now, firstName := firstName, lastName := lastName,
        email := email, password := password }
    (true, { s with heap := s.heap ++ [newUser], users := s.users ++ [s.heap.length] })

/-- The function `login(email, password, navigation)`: which branch was taken,
and the next state.  A reference found by the callback is allocated, so the
inner `none` branch is never taken. -/
def login (s : AuthState) (email password : String) : LoginOutcome × AuthState :=
  match s.users.find? (refMatches toLowerCase s.heap email) with
  | none => (LoginOutcome.userNotFound, s)
  | some r =>
    match s.heap[r]? with
    | none => (LoginOutcome.userNotFound, s)
    | some user =>
      if user.password ≠ password then (LoginOutcome.wrongPassword, s)
      else (LoginOutcome.success, { s with currentUser := some r })

/-- The function `logout()`: `setCurrentUser(null)`. -/
def logout (s : AuthState) : AuthState :=
  { s with currentUser := none }

/-- The assignment `o.password = newPassword` on the object `r` refers to. -/
def setPassword (heap : List User) (r : Nat) (newPassword : String) : List User :=
  match heap[r]? with
  | some u => heap.set r { u with password := newPassword }
  | none => heap

/-- The method `Array.prototype.findIndex`: the position of the first element satisfying
the callback, `-1` when there is none. -/
def findIndex {α : Type} (p : α → Bool) (l : List α) : Int :=
  if l.findIdx p < l.length then (l.findIdx p : Int) else -1

/-- The function `resetPassword(email, newPassword)`: the returned boolean and
the next state.  The assignment `updatedUsers[userIndex].password = newPassword` writes
to the object shared by the old array, the new array and `currentUser`. -/
def resetPassword (s : AuthState) (email newPassword : String) : Bool × AuthState :=
  let userIndex := findIndex (refMatches toLowerCase s.heap email) s.users
  if userIndex = -1 then (false, s)
  else
    match s.users[userIndex.toNat]? with
    | none => (false, s)
    | some r => (true, { s with heap := setPassword s.heap r newPassword })

end Operations

/-- One call on the context value. -/
inductive Call where
  | signUp (firstName lastName email password : String) (now : Nat)
  | login (email password : String)
  | logout
  | resetPassword (email newPassword : String)
deriving DecidableEq, Repr

/-- The state after one call. -/
def step (toLowerCase : String → String) (s : AuthState) : Call → AuthState
  | Call.signUp f l e p now => (signUp toLowerCase s f l e p now).2
  | Call.login e p => (login toLowerCase s e p).2
  | Call.logout => logout s
  | Call.resetPassword e p => (resetPassword toLowerCase s e p).2

/-- The state after a finite sequence of calls. -/
def run (toLowerCase : String → String) (s : AuthState) (calls : List Call) : AuthState :=
  calls.foldl (step toLowerCase) s

/-- The registry holds no two entries whose e-mail addresses agree after
lower-casing. -/
def EmailsUnique (toLowerCase : String → String) (s : AuthState) : Prop :=
  ((registry s).map (fun u => toLowerCase u.email)).Nodup

/-- The values `Date.now()` returned along a sequence of calls, oldest first:
one for each `signUp` that passed the duplicate check (the others never read the
clock). -/
def clockReads (toLowerCase : String → String) (s : AuthState) : List Call → List Nat
  | [] => []
  | Call.signUp f l e p now :: rest =>
    if (signUp toLowerCase s f l e p now).1 = true then
      now :: clockReads toLowerCase (signUp toLowerCase s f l e p now).2 rest
    else clockReads toLowerCase (signUp toLowerCase s f l e p now).2 rest
  | c :: rest => clockReads toLowerCase (step toLowerCase s c) rest

/-- The number a list of decimal digit characters denotes. -/
def decodeDigits (l : List Char) : Nat :=
  l.foldl (fun a c => a * 10 + (c.toNat - 48)) 0

instance decidableWellFormed (s : AuthState) : Decidable (WellFormed s) := by
  unfold WellFormed
  exact inferInstance

/-- A sample session: Ann registers, logs in with her address in capitals, Bob
registers, a second Ann is turned away, Ann resets her password. -/
def sampleCalls : List Call :=
  [Call.signUp "Ann" "Lee" "ann@x.com" "Abcd123!" 1000,
   Call.login "ANN@X.COM" "Abcd123!",
   Call.signUp "Bob" "Ray" "bob@x.com" "Efgh456#" 1001,
   Call.signUp "Ann" "Other" "Ann@X.com" "Ijkl789$" 1002,
   Call.resetPassword "ann@X.COM" "Newpw1!"]

/-- The state the sample session ends in. -/
def sampleState : AuthState :=
  run asciiToLowerCase initial sampleCalls

/-- The state after the single registration
`signUp("Ann", "Lee", "ann@x.com", "Abcd123!")`. -/
def annState : AuthState :=
  run asciiToLowerCase initial [Call.signUp "Ann" "Lee" "ann@x.com" "Abcd123!" 1000]

end AuthContext

/-! ## The regular expressions of the screens

The screens test their inputs with `RegExp.prototype.test`.  A JavaScript
string is a sequence of UTF-16 code units, and a pattern without the `u` flag
consumes one code unit at a time, so the matcher works on lists of code units.
`Pattern` covers the constructs the screens use: `^`, `$`, a class matching one
code unit, a greedy repetition `X{min,}` of such a class (`+`, `*`, `{8,}`), a
lookahead `(?=...)` and concatenation. -/

namespace RegExp

/-- The UTF-16 code units of a string. -/
def codeUnits (s : String) : List Nat :=
  s.data.flatMap fun c =>
    if c.toNat < 65536 then [c.toNat]
    else [55296 + (c.toNat - 65536) / 1024, 56320 + (c.toNat - 65536) % 1024]

/-- The line terminators: LF, CR, LS and PS. -/
def isLineTerminator (c : Nat) : Bool :=
  c == 10 || c == 13 || c == 8232 || c == 8233

/-- The class `\s`: TAB, VT, FF, the space separators, the byte-order mark and
the line terminators. -/
def isWhiteSpace (c : Nat) : Bool :=
  c == 9 || c == 11 || c == 12 || c == 32 || c == 160 || c == 5760 ||
    (8192 ≤ c && c ≤ 8202) || c == 8239 || c == 8287 || c == 12288 || c == 65279 ||
    isLineTerminator c

/-- The class `\S`. -/
def nonWhiteSpace (c : Nat) : Bool := !isWhiteSpace c

/-- The atom `.` (no `s` flag): any code unit but a line terminator. -/
def anyChar (c : Nat) : Bool := !isLineTerminator c

/-- The class `[a-z]`. -/
def lowerCase (c : Nat) : Bool := 97 ≤ c && c ≤ 122

/-- The class `[A-Z]`. -/
def upperCase (c : Nat) : Bool := 65 ≤ c && c ≤ 90

/-- The class `\d`. -/
def digit (c : Nat) : Bool := 48 ≤ c && c ≤ 57

/-- The class `[!@#$%^&*]`. -/
def special (c : Nat) : Bool :=
  c == 33 || c == 64 || c == 35 || c == 36 || c == 37 || c == 94 || c == 38 || c == 42

/-- A literal character, given by its code unit. -/
def literal (a : Nat) (c : Nat) : Bool := c == a

/-- The pattern constructs used by the screens. -/
inductive Pattern where
  | assertStart
  | assertEnd
  | charClass (p : Nat → Bool)
  | repeatClass (p : Nat → Bool) (min : Nat)
  | lookahead (r : Pattern)
  | seq (a b : Pattern)

/-- The greedy repetition `X{min,}` of a one-code-unit class at position `pos`
with `rest` still to read: take one more code unit when the class allows it,
and otherwise (or when what follows then fails) go on with the continuation `k`
once `min` iterations are done. -/
def matchMany (p : Nat → Bool) :
    Nat → Nat → List Nat → (Nat → List Nat → Bool) → Bool
  | min, pos, [], k => min == 0 && k pos []
  | min, pos, x :: xs, k =>
    (p x && matchMany p (min - 1) (pos + 1) xs k) || (min == 0 && k pos (x :: xs))

/-- The backtracking matcher: `r.run pos rest k` matches `r` at position `pos`,
where `rest` is the input from `pos` on, and hands the position and input left
to the continuation `k`. -/
def Pattern.run : Pattern → Nat → List Nat → (Nat → List Nat → Bool) → Bool
  | Pattern.assertStart, pos, rest, k => pos == 0 && k pos rest
  | Pattern.assertEnd, pos, rest, k => rest.isEmpty && k pos rest
  | Pattern.charClass _, _, [], _ => false
  | Pattern.charClass p, pos, x :: xs, k => p x && k (pos + 1) xs
  | Pattern.repeatClass p min, pos, rest, k => matchMany p min pos rest k
  | Pattern.lookahead r, pos, rest, k => r.run pos rest (fun _ _ => true) && k pos rest
  | Pattern.seq a b, pos, rest, k => a.run pos rest (fun pos1 rest1 => b.run pos1 rest1 k)

/-- The search of `test` from position `pos` on: the first start position at
which the pattern matches, tried from left to right up to the end of input. -/
def testFrom (r : Pattern) : Nat → List Nat → Bool
  | pos, [] => r.run pos [] (fun _ _ => true)
  | pos, x :: xs => r.run pos (x :: xs) (fun _ _ => true) || testFrom r (pos + 1) xs

/-- The method `RegExp.prototype.test` of a pattern without flags. -/
def test (r : Pattern) (s : List Nat) : Bool :=
  testFrom r 0 s

/-- Somewhere in `s` stands a block made of one or more non-whitespace code
units, then `@`, then one or more non-whitespace code units, then `.`, then one
or more non-whitespace code units; `pre` and `post` are whatever surrounds it. -/
def ContainsAddress (s : List Nat) : Prop :=
  ∃ pre u v w post, s = pre ++ u ++ [64] ++ v ++ [46] ++ w ++ post ∧
    u ≠ [] ∧ v ≠ [] ∧ w ≠ [] ∧
    (∀ c ∈ u, isWhiteSpace c = false) ∧ (∀ c ∈ v, isWhiteSpace c = false) ∧
    (∀ c ∈ w, isWhiteSpace c = false)

/-- The password shape: at least eight code units, none of them a line
terminator, with a lower-case letter, an upper-case letter, a digit and one of
`! @ # $ % ^ & *` among them. -/
def StrongPassword (s : List Nat) : Prop :=
  8 ≤ s.length ∧ (∀ c ∈ s, isLineTerminator c = false) ∧
    (∃ c ∈ s, lowerCase c = true) ∧ (∃ c ∈ s, upperCase c = true) ∧
    (∃ c ∈ s, digit c = true) ∧ (∃ c ∈ s, special c = true)

end RegExp

/-- What a screen handler does with a form: it shows an alert and returns, or
it calls the operation of the context with the arguments `args`. -/
inductive HandlerResult (α : Type) where
  | alert (title message : String)
  | call (args : α)
deriving DecidableEq, Repr

namespace LoginScreen

open RegExp

/-- The constant `emailRegex = /\S+@\S+\.\S+/` of `handleLogin`. -/
def emailRegex : Pattern :=
  Pattern.seq (Pattern.repeatClass nonWhiteSpace 1)
    (Pattern.seq (Pattern.charClass (literal 64))
      (Pattern.seq (Pattern.repeatClass nonWhiteSpace 1)
        (Pattern.seq (Pattern.charClass (literal 46))
          (Pattern.repeatClass nonWhiteSpace 1))))

/-- The constant
`passwordRegex = /^(?=.*[a-z])(?=.*[A-Z])(?=.*\d)(?=.*[!@#$%^&*]).{8,}$/` of
`handleLogin`. -/
def passwordRegex : Pattern :=
  Pattern.seq Pattern.assertStart
    (Pattern.seq
      (Pattern.lookahead (Pattern.seq (Pattern.repeatClass anyChar 0) (Pattern.charClass lowerCase)))
      (Pattern.seq
        (Pattern.lookahead
          (Pattern.seq (Pattern.repeatClass anyChar 0) (Pattern.charClass upperCase)))
        (Pattern.seq
          (Pattern.lookahead
            (Pattern.seq (Pattern.repeatClass anyChar 0) (Pattern.charClass digit)))
          (Pattern.seq
            (Pattern.lookahead
              (Pattern.seq (Pattern.repeatClass anyChar 0) (Pattern.charClass special)))
            (Pattern.seq (Pattern.repeatClass anyChar 8) Pattern.assertEnd)))))

/-- The message of the "Invalid Password Format" alert. -/
def invalidPasswordFormatMessage : String :=
  "Your password does not meet the required format.\n\nRequired:\n- At least 8 characters\n- One uppercase letter\n- One lowercase letter\n- One number\n- One special character (!@#$%)"

/-- The special characters the "Invalid Password Format" message lists as
required: `!@#$%`. -/
def listedSpecials : List Nat :=
  codeUnits "!@#$%"

/-- The handler `handleLogin` on the form fields `email` and `password`: the
alert it shows, or the arguments it passes to `login`. -/
def handleLogin (email password : String) : HandlerResult (String × String) :=
  if !test emailRegex (codeUnits email) then
    HandlerResult.alert "Invalid Format" "Please enter a valid email address."
  else if !test passwordRegex (codeUnits password) then
    HandlerResult.alert "Invalid Password Format" invalidPasswordFormatMessage
  else HandlerResult.call (email, password)

end LoginScreen

namespace SignUpScreen

open RegExp

/-- The constant `emailRegex = /\S+@\S+\.\S+/` of `handleSignUp`. -/
def emailRegex : Pattern :=
  Pattern.seq (Pattern.repeatClass nonWhiteSpace 1)
    (Pattern.seq (Pattern.charClass (literal 64))
      (Pattern.seq (Pattern.repeatClass nonWhiteSpace 1)
        (Pattern.seq (Pattern.charClass (literal 46))
          (Pattern.repeatClass nonWhiteSpace 1))))

/-- The constant
`passwordRegex = /^(?=.*[a-z])(?=.*[A-Z])(?=.*\d)(?=.*[!@#$%^&*]).{8,}$/` of
`handleSignUp`. -/
def passwordRegex : Pattern :=
  Pattern.seq Pattern.assertStart
    (Pattern.seq
      (Pattern.lookahead (Pattern.seq (Pattern.repeatClass anyChar 0) (Pattern.charClass lowerCase)))
      (Pattern.seq
        (Pattern.lookahead
          (Pattern.seq (Pattern.repeatClass anyChar 0) (Pattern.charClass upperCase)))
        (Pattern.seq
          (Pattern.lookahead
            (Pattern.seq (Pattern.repeatClass anyChar 0) (Pattern.charClass digit)))
          (Pattern.seq
            (Pattern.lookahead
              (Pattern.seq (Pattern.repeatClass anyChar 0) (Pattern.charClass special)))
            (Pattern.seq (Pattern.repeatClass anyChar 8) Pattern.assertEnd)))))

/-- The handler `handleSignUp` on the five form fields: the alert it shows, or
the arguments it passes to `signUp`.  An empty string is the only falsy
string. -/
def handleSignUp (firstName lastName email password confirmPassword : String) :
    HandlerResult (String × String × String × String) :=
  if firstName = "" ∨ lastName = "" ∨ email = "" ∨ password = "" ∨ confirmPassword = "" then
    HandlerResult.alert "Validation Error" "Please fill in all fields."
  else if password ≠ confirmPassword then
    HandlerResult.alert "Validation Error" "Passwords do not match."
  else if !test emailRegex (codeUnits email) then
    HandlerResult.alert "Validation Error" "Please enter a valid email address."
  else if !test passwordRegex (codeUnits password) then
    HandlerResult.alert "Invalid Password"
      "Password must be at least 8 characters long and include an uppercase letter, a lowercase letter, a number, and a special character."
  else HandlerResult.call (firstName, lastName, email, password)

end SignUpScreen

namespace ForgotPasswordScreen

open RegExp

/-- The constant
`passwordRegex = /^(?=.*[a-z])(?=.*[A-Z])(?=.*\d)(?=.*[!@#$%^&*]).{8,}$/` of
`handleResetPassword`. -/
def passwordRegex : Pattern :=
  Pattern.seq Pattern.assertStart
    (Pattern.seq
      (Pattern.lookahead (Pattern.seq (Pattern.repeatClass anyChar 0) (Pattern.charClass lowerCase)))
      (Pattern.seq
        (Pattern.lookahead
          (Pattern.seq (Pattern.repeatClass anyChar 0) (Pattern.charClass upperCase)))
        (Pattern.seq
          (Pattern.lookahead
            (Pattern.seq (Pattern.repeatClass anyChar 0) (Pattern.charClass digit)))
          (Pattern.seq
            (Pattern.lookahead
              (Pattern.seq (Pattern.repeatClass anyChar 0) (Pattern.charClass special)))
            (Pattern.seq (Pattern.repeatClass anyChar 8) Pattern.assertEnd)))))

/-- The handler `handleResetPassword` on the three form fields: the alert it
shows before any call, or the arguments it passes to `resetPassword`. -/
def handleResetPassword (email newPassword confirmPassword : String) :
    HandlerResult (String × String) :=
  if email = "" ∨ newPassword = "" ∨ confirmPassword = "" then
    HandlerResult.alert "Validation Error" "Please fill in all fields."
  else if !test passwordRegex (codeUnits newPassword) then
    HandlerResult.alert "Invalid New Password"
      "Your new password does not meet the required format."
  else if newPassword ≠ confirmPassword then
    HandlerResult.alert "Validation Error" "New passwords do not match."
  else HandlerResult.call (email, newPassword)

end ForgotPasswordScreen

namespace AuthContext

/-! ## Reading the `users` array through the store -/

section Lemmas

variable (toLowerCase : String → String)

theorem find?_deref (heap : List User) (email : String) (l : List Nat) :
    (l.filterMap (fun r => heap[r]?)).find? (emailMatches toLowerCase email) =
      (l.find? (refMatches toLowerCase heap email)).bind (fun r => heap[r]?) := by
  induction l with
  | nil => rfl
  | cons a t ih =>
    cases h : heap[a]? with
    | none => simp [List.filterMap_cons, List.find?_cons, refMatches, h, ih]
    | some u =>
      cases hm : emailMatches toLowerCase email u <;>
        simp [List.filterMap_cons, List.find?_cons, refMatches, h, hm, ih]

theorem find?_registry (s : AuthState) (email : String) :
    (registry s).find? (emailMatches toLowerCase email) =
      (s.users.find? (refMatches toLowerCase s.heap email)).bind (fun r => s.heap[r]?) :=
  find?_deref toLowerCase s.heap email s.users

theorem refMatches_deref {heap : List User} {email : String} {r : Nat}
    (h : refMatches toLowerCase heap email r = true) :
    ∃ u, heap[r]? = some u ∧ emailMatches toLowerCase email u = true := by
  unfold refMatches at h
  cases hr : heap[r]? with
  | none => simp [hr] at h
  | some u => exact ⟨u, rfl, by simpa [hr] using h⟩

theorem find?_users_eq_none (s : AuthState) (email : String) :
    s.users.find? (refMatches toLowerCase s.heap email) = none ↔
      (registry s).find? (emailMatches toLowerCase email) = none := by
  rw [find?_registry]
  constructor
  · intro h
    simp [h]
  · intro h
    cases hf : s.users.find? (refMatches toLowerCase s.heap email) with
    | none => rfl
    | some r =>
      obtain ⟨u, hu, -⟩ := refMatches_deref toLowerCase (List.find?_some hf)
      simp [hf, hu] at h

theorem registry_find?_eq_none (s : AuthState) (email : String) :
    (registry s).find? (emailMatches toLowerCase email) = none ↔
      ¬ ∃ u ∈ registry s, toLowerCase u.email = toLowerCase email := by
  simp [List.find?_eq_none, emailMatches]

/-! ## The store after an allocation and after a password assignment -/

theorem filterMap_deref_append (heap : List User) (x : User) (l : List Nat)
    (hl : ∀ r ∈ l, r < heap.length) :
    l.filterMap (fun r => (heap ++ [x])[r]?) = l.filterMap (fun r => heap[r]?) := by
  induction l with
  | nil => rfl
  | cons a t ih =>
    have ha : a < heap.length := hl a (List.mem_cons_self a t)
    have ht : ∀ r ∈ t, r < heap.length := fun r hr => hl r (List.mem_cons_of_mem a hr)
    simp [List.filterMap_cons, List.getElem?_append_left ha, ih ht]

theorem getElem?_setPassword (heap : List User) (r0 r : Nat) (p : String) :
    (setPassword heap r0 p)[r]? =
      if r = r0 then (heap[r]?).map (fun u => { u with password := p }) else heap[r]? := by
  unfold setPassword
  cases h : heap[r0]? with
  | none =>
    by_cases hr : r = r0
    · subst hr; simp [h]
    · simp [hr]
  | some u =>
    by_cases hr : r = r0
    · subst hr
      have hlt : r < heap.length := by
        by_contra hc
        rw [List.getElem?_eq_none (Nat.le_of_not_lt hc)] at h
        exact Option.noConfusion h
      simp [h, List.getElem?_set, hlt]
    · have hr2 : ¬ r0 = r := fun e => hr e.symm
      simp [hr, hr2, List.getElem?_set]

theorem length_setPassword (heap : List User) (r0 : Nat) (p : String) :
    (setPassword heap r0 p).length = heap.length := by
  unfold setPassword
  cases h : heap[r0]? <;> simp

theorem filterMap_setPassword_of_not_mem (heap : List User) (r0 : Nat) (p : String)
    (l : List Nat) (hl : r0 ∉ l) :
    l.filterMap (fun r => (setPassword heap r0 p)[r]?) = l.filterMap (fun r => heap[r]?) := by
  induction l with
  | nil => rfl
  | cons a t ih =>
    have ha : a ≠ r0 := fun e => hl (e ▸ List.mem_cons_self a t)
    have ht : r0 ∉ t := fun hm => hl (List.mem_cons_of_mem a hm)
    rw [List.filterMap_cons, List.filterMap_cons, ih ht, getElem?_setPassword, if_neg ha]

theorem filterMap_setPassword (heap : List User) (r0 : Nat) (p : String) (u : User)
    (hu : heap[r0]? = some u) (l : List Nat) (hl : ∀ r ∈ l, r < heap.length)
    (hnd : l.Nodup) (i : Nat) (hi : l[i]? = some r0) :
    l.filterMap (fun r => (setPassword heap r0 p)[r]?) =
      (l.filterMap (fun r => heap[r]?)).set i { u with password := p } := by
  induction l generalizing i with
  | nil => simp at hi
  | cons a t ih =>
    have ha : a < heap.length := hl a (List.mem_cons_self a t)
    have ht : ∀ r ∈ t, r < heap.length := fun r hr => hl r (List.mem_cons_of_mem a hr)
    obtain ⟨hat, htnd⟩ := List.nodup_cons.mp hnd
    obtain ⟨v, hv⟩ : ∃ v, heap[a]? = some v := ⟨heap[a], List.getElem?_eq_getElem ha⟩
    cases i with
    | zero =>
      have hEq : a = r0 := by simpa using hi
      subst hEq
      have hvu : v = u := by rw [hv] at hu; exact Option.some.inj hu
      subst hvu
      rw [List.filterMap_cons, List.filterMap_cons,
        filterMap_setPassword_of_not_mem heap a p t hat, getElem?_setPassword, if_pos rfl, hv]
      rfl
    | succ j =>
      have hj : t[j]? = some r0 := by simpa using hi
      have hmem : r0 ∈ t := List.mem_iff_getElem?.mpr ⟨j, hj⟩
      have hne : a ≠ r0 := fun e => hat (e ▸ hmem)
      rw [List.filterMap_cons, List.filterMap_cons, ih ht htnd j hj, getElem?_setPassword,
        if_neg hne, hv]
      rfl

theorem findIdx_deref (heap : List User) (email : String) (l : List Nat)
    (hl : ∀ r ∈ l, r < heap.length) :
    (l.filterMap (fun r => heap[r]?)).findIdx (emailMatches toLowerCase email) =
      l.findIdx (refMatches toLowerCase heap email) := by
  induction l with
  | nil => rfl
  | cons a t ih =>
    have ha : a < heap.length := hl a (List.mem_cons_self a t)
    have ht : ∀ r ∈ t, r < heap.length := fun r hr => hl r (List.mem_cons_of_mem a hr)
    obtain ⟨v, hv⟩ : ∃ v, heap[a]? = some v := ⟨heap[a], List.getElem?_eq_getElem ha⟩
    simp [List.filterMap_cons, List.findIdx_cons, hv, refMatches, ih ht]

theorem getElem?_deref (heap : List User) (l : List Nat)
    (hl : ∀ r ∈ l, r < heap.length) (i : Nat) :
    (l.filterMap (fun r => heap[r]?))[i]? = (l[i]?).bind (fun r => heap[r]?) := by
  induction l generalizing i with
  | nil => rfl
  | cons a t ih =>
    have ha : a < heap.length := hl a (List.mem_cons_self a t)
    have ht : ∀ r ∈ t, r < heap.length := fun r hr => hl r (List.mem_cons_of_mem a hr)
    obtain ⟨v, hv⟩ : ∃ v, heap[a]? = some v := ⟨heap[a], List.getElem?_eq_getElem ha⟩
    cases i with
    | zero => simp [List.filterMap_cons, hv]
    | succ j => simp [List.filterMap_cons, hv, ih ht j]

/-! ## The operations, branch by branch -/

theorem getElem?_findIdx {α : Type} (p : α → Bool) (l : List α) :
    l[l.findIdx p]? = l.find? p := by
  induction l with
  | nil => rfl
  | cons a t ih =>
    cases h : p a <;> simp [List.findIdx_cons, List.find?_cons, h, ih]

theorem findIndex_of_find?_none {α : Type} (p : α → Bool) (l : List α)
    (h : l.find? p = none) : findIndex p l = -1 := by
  unfold findIndex
  have h1 : l[l.findIdx p]? = none := by rw [getElem?_findIdx, h]
  have h2 : l.length ≤ l.findIdx p := List.getElem?_eq_none_iff.mp h1
  rw [if_neg (by omega)]

theorem findIndex_of_find?_some {α : Type} (p : α → Bool) (l : List α) (a : α)
    (h : l.find? p = some a) :
    findIndex p l = (l.findIdx p : Int) ∧ l[l.findIdx p]? = some a := by
  have h1 : l[l.findIdx p]? = some a := by rw [getElem?_findIdx, h]
  have h2 : l.findIdx p < l.length := by
    by_contra hc
    rw [List.getElem?_eq_none (Nat.le_of_not_lt hc)] at h1
    exact Option.noConfusion h1
  exact ⟨by unfold findIndex; rw [if_pos h2], h1⟩

theorem signUp_of_none (s : AuthState) (f l e p : String) (now : Nat)
    (h : s.users.find? (refMatches toLowerCase s.heap e) = none) :
    signUp toLowerCase s f l e p now =
      (true, { s with
        heap := s.heap ++ [{ id := toString now, firstName := f, lastName := l,
                             email := e, password := p }],
        users := s.users ++ [s.heap.length] }) := by
  unfold signUp
  rw [h]

theorem signUp_of_some (s : AuthState) (f l e p : String) (now : Nat) (r : Nat)
    (h : s.users.find? (refMatches toLowerCase s.heap e) = some r) :
    signUp toLowerCase s f l e p now = (false, s) := by
  unfold signUp
  rw [h]

theorem resetPassword_of_none (s : AuthState) (e p : String)
    (h : s.users.find? (refMatches toLowerCase s.heap e) = none) :
    resetPassword toLowerCase s e p = (false, s) := by
  unfold resetPassword
  simp only [findIndex_of_find?_none _ _ h, if_true]

theorem resetPassword_of_some (s : AuthState) (e p : String) (r : Nat)
    (h : s.users.find? (refMatches toLowerCase s.heap e) = some r) :
    resetPassword toLowerCase s e p =
      (true, { s with heap := setPassword s.heap r p }) := by
  obtain ⟨h1, h2⟩ := findIndex_of_find?_some _ _ _ h
  unfold resetPassword
  have hne : ¬ ((s.users.findIdx (refMatches toLowerCase s.heap e) : Int) = -1) := by omega
  simp only [h1, if_neg hne, Int.toNat_ofNat, h2]

theorem login_of_none (s : AuthState) (e p : String)
    (h : s.users.find? (refMatches toLowerCase s.heap e) = none) :
    login toLowerCase s e p = (LoginOutcome.userNotFound, s) := by
  unfold login
  rw [h]

theorem login_of_some (s : AuthState) (e p : String) (r : Nat) (u : User)
    (h : s.users.find? (refMatches toLowerCase s.heap e) = some r) (hu : s.heap[r]? = some u) :
    login toLowerCase s e p =
      if u.password ≠ p then (LoginOutcome.wrongPassword, s)
      else (LoginOutcome.success, { s with currentUser := some r }) := by
  unfold login
  rw [h]
  simp only [hu]

/-! ## Well-formedness is preserved, hence holds of every reachable state -/

theorem wellFormed_initial : WellFormed initial := by
  refine ⟨?_, ?_, ?_⟩ <;> simp [initial]

theorem wellFormed_signUp (s : AuthState) (f l e p : String) (now : Nat)
    (hs : WellFormed s) : WellFormed (signUp toLowerCase s f l e p now).2 := by
  cases h : s.users.find? (refMatches toLowerCase s.heap e) with
  | some r => rw [signUp_of_some toLowerCase s f l e p now r h]; exact hs
  | none =>
    rw [signUp_of_none toLowerCase s f l e p now h]
    obtain ⟨h1, h2, h3⟩ := hs
    refine ⟨?_, ?_, ?_⟩
    · intro r hr
      simp only [List.mem_append, List.mem_singleton] at hr
      simp only [List.length_append, List.length_singleton]
      rcases hr with hr | hr
      · have := h1 r hr; omega
      · omega
    · refine List.Nodup.append h2 (List.nodup_singleton _) ?_
      intro r hr hr2
      have h4 := h1 r hr
      have h5 : r = s.heap.length := by simpa using hr2
      omega
    · intro r hr
      have := h3 r hr
      simp only [List.length_append, List.length_singleton]
      omega

theorem wellFormed_login (s : AuthState) (e p : String)
    (hs : WellFormed s) : WellFormed (login toLowerCase s e p).2 := by
  cases h : s.users.find? (refMatches toLowerCase s.heap e) with
  | none => rw [login_of_none toLowerCase s e p h]; exact hs
  | some r =>
    obtain ⟨u, hu, -⟩ := refMatches_deref toLowerCase (List.find?_some h)
    rw [login_of_some toLowerCase s e p r u h hu]
    by_cases hp : u.password ≠ p
    · rw [if_pos hp]; exact hs
    · rw [if_neg hp]
      obtain ⟨h1, h2, -⟩ := hs
      refine ⟨h1, h2, ?_⟩
      intro r2 hr2
      have h4 : r = r2 := by simpa using hr2
      exact h4 ▸ h1 r (List.mem_of_find?_eq_some h)

theorem wellFormed_logout (s : AuthState) (hs : WellFormed s) : WellFormed (logout s) := by
  obtain ⟨h1, h2, -⟩ := hs
  exact ⟨h1, h2, by simp [logout]⟩

theorem wellFormed_resetPassword (s : AuthState) (e p : String)
    (hs : WellFormed s) : WellFormed (resetPassword toLowerCase s e p).2 := by
  cases h : s.users.find? (refMatches toLowerCase s.heap e) with
  | none => rw [resetPassword_of_none toLowerCase s e p h]; exact hs
  | some r =>
    rw [resetPassword_of_some toLowerCase s e p r h]
    obtain ⟨h1, h2, h3⟩ := hs
    refine ⟨?_, h2, ?_⟩
    · intro r2 hr2
      simp only [length_setPassword]
      exact h1 r2 hr2
    · intro r2 hr2
      simp only [length_setPassword]
      exact h3 r2 hr2

theorem wellFormed_step (s : AuthState) (c : Call) (hs : WellFormed s) :
    WellFormed (step toLowerCase s c) := by
  cases c with
  | signUp f l e p now => exact wellFormed_signUp toLowerCase s f l e p now hs
  | login e p => exact wellFormed_login toLowerCase s e p hs
  | logout => exact wellFormed_logout s hs
  | resetPassword e p => exact wellFormed_resetPassword toLowerCase s e p hs

theorem run_invariant (P : AuthState → Prop)
    (hstep : ∀ s c, P s → P (step toLowerCase s c)) (calls : List Call) :
    ∀ s, P s → P (run toLowerCase s calls) := by
  induction calls with
  | nil => intro s hs; exact hs
  | cons c t ih => intro s hs; exact ih (step toLowerCase s c) (hstep s c hs)

theorem wellFormed_run (calls : List Call) :
    WellFormed (run toLowerCase initial calls) :=
  run_invariant toLowerCase WellFormed (wellFormed_step toLowerCase) calls initial
    wellFormed_initial

/-! ## The registry after each operation -/

theorem registry_signUp (s : AuthState) (f l e p : String) (now : Nat)
    (hs : WellFormed s)
    (h : s.users.find? (refMatches toLowerCase s.heap e) = none) :
    registry (signUp toLowerCase s f l e p now).2 =
      registry s ++ [{ id := toString now, firstName := f, lastName := l,
                       email := e, password := p }] := by
  rw [signUp_of_none toLowerCase s f l e p now h]
  simp only [registry, List.filterMap_append]
  rw [filterMap_deref_append _ _ _ hs.1]
  simp

theorem registry_resetPassword (s : AuthState) (e p : String) (r : Nat) (u : User)
    (hs : WellFormed s)
    (h : s.users.find? (refMatches toLowerCase s.heap e) = some r)
    (hu : s.heap[r]? = some u) :
    registry (resetPassword toLowerCase s e p).2 =
      (registry s).set ((registry s).findIdx (emailMatches toLowerCase e))
        { u with password := p } := by
  rw [resetPassword_of_some toLowerCase s e p r h]
  simp only [registry]
  rw [findIdx_deref toLowerCase _ _ _ hs.1]
  exact filterMap_setPassword s.heap r p u hu s.users hs.1 hs.2.1 _
    (findIndex_of_find?_some _ _ _ h).2

theorem registry_login (s : AuthState) (e p : String) :
    registry (login toLowerCase s e p).2 = registry s := by
  unfold login
  split
  · rfl
  · split
    · rfl
    · split <;> rfl

theorem registry_logout (s : AuthState) : registry (logout s) = registry s := rfl

theorem registry_first_match (s : AuthState) (e : String) (r : Nat) (u : User)
    (h : s.users.find? (refMatches toLowerCase s.heap e) = some r)
    (hu : s.heap[r]? = some u) :
    (registry s).find? (emailMatches toLowerCase e) = some u ∧
      (registry s)[(registry s).findIdx (emailMatches toLowerCase e)]? = some u := by
  have h1 : (registry s).find? (emailMatches toLowerCase e) = some u := by
    rw [find?_registry, h]; exact hu
  exact ⟨h1, by rw [getElem?_findIdx, h1]⟩

theorem map_set_of_eq {β : Type} (f : User → β) (l : List User) (i : Nat) (u v : User)
    (hi : l[i]? = some u) (hf : f v = f u) : (l.set i v).map f = l.map f := by
  induction l generalizing i with
  | nil => rfl
  | cons a t ih =>
    cases i with
    | zero =>
      have ha : a = u := by simpa using hi
      simp [ha, hf]
    | succ j =>
      have hj : t[j]? = some u := by simpa using hi
      simp [ih j hj]

theorem registry_resetPassword_map {β : Type} (f : User → β)
    (hf : ∀ (u : User) (p : String), f { u with password := p } = f u)
    (s : AuthState) (e p : String) (hs : WellFormed s) :
    (registry (resetPassword toLowerCase s e p).2).map f = (registry s).map f := by
  cases h : s.users.find? (refMatches toLowerCase s.heap e) with
  | none => rw [resetPassword_of_none toLowerCase s e p h]
  | some r =>
    obtain ⟨u, hu, -⟩ := refMatches_deref toLowerCase (List.find?_some h)
    rw [registry_resetPassword toLowerCase s e p r u hs h hu]
    exact map_set_of_eq f _ _ u _ (registry_first_match toLowerCase s e r u h hu).2 (hf u p)

/-! ## Uniqueness of e-mail addresses up to letter case -/

theorem emailsUnique_step (s : AuthState) (c : Call)
    (hs : WellFormed s ∧ EmailsUnique toLowerCase s) :
    WellFormed (step toLowerCase s c) ∧ EmailsUnique toLowerCase (step toLowerCase s c) := by
  refine ⟨wellFormed_step toLowerCase s c hs.1, ?_⟩
  obtain ⟨hwf, hu⟩ := hs
  unfold EmailsUnique at hu ⊢
  cases c with
  | signUp f l e p now =>
    show ((registry (signUp toLowerCase s f l e p now).2).map _).Nodup
    cases h : s.users.find? (refMatches toLowerCase s.heap e) with
    | some r => rw [signUp_of_some toLowerCase s f l e p now r h]; exact hu
    | none =>
      rw [registry_signUp toLowerCase s f l e p now hwf h, List.map_append]
      refine List.Nodup.append hu (List.nodup_singleton _) ?_
      intro x hx hx2
      have hno := (registry_find?_eq_none toLowerCase s e).mp
        ((find?_users_eq_none toLowerCase s e).mp h)
      obtain ⟨v, hv, hve⟩ := List.mem_map.mp hx
      have hxe : x = toLowerCase e := by simpa using hx2
      exact hno ⟨v, hv, hve.trans hxe⟩
  | login e p =>
    show ((registry (login toLowerCase s e p).2).map _).Nodup
    rw [registry_login]; exact hu
  | logout => exact hu
  | resetPassword e p =>
    show ((registry (resetPassword toLowerCase s e p).2).map _).Nodup
    rw [registry_resetPassword_map toLowerCase (fun u => toLowerCase u.email)
      (fun _ _ => rfl) s e p hwf]
    exact hu

theorem emailsUnique_run (calls : List Call) :
    EmailsUnique toLowerCase (run toLowerCase initial calls) :=
  (run_invariant toLowerCase (fun s => WellFormed s ∧ EmailsUnique toLowerCase s)
    (emailsUnique_step toLowerCase) calls initial
    ⟨wellFormed_initial, by simp [EmailsUnique, registry, initial]⟩).2

theorem session_resetPassword (s : AuthState) (e p : String) :
    (resetPassword toLowerCase s e p).2.currentUser = s.currentUser ∧
      ∃ f : User → User, (∀ u, f u = u ∨ f u = { u with password := p }) ∧
        session (resetPassword toLowerCase s e p).2 = (session s).map f := by
  cases h : s.users.find? (refMatches toLowerCase s.heap e) with
  | none =>
    rw [resetPassword_of_none toLowerCase s e p h]
    exact ⟨rfl, id, fun u => Or.inl rfl, by simp⟩
  | some r =>
    rw [resetPassword_of_some toLowerCase s e p r h]
    refine ⟨rfl, ?_⟩
    cases hc : s.currentUser with
    | none => exact ⟨id, fun u => Or.inl rfl, by simp [session, hc]⟩
    | some c =>
      by_cases hcr : c = r
      · exact ⟨fun u => { u with password := p }, fun u => Or.inr rfl,
          by simp [session, hc, getElem?_setPassword, hcr]⟩
      · exact ⟨id, fun u => Or.inl rfl, by simp [session, hc, getElem?_setPassword, hcr]⟩

theorem session_signUp (s : AuthState) (f l e p : String) (now : Nat) (hs : WellFormed s) :
    (signUp toLowerCase s f l e p now).2.currentUser = s.currentUser ∧
      session (signUp toLowerCase s f l e p now).2 = session s := by
  cases h : s.users.find? (refMatches toLowerCase s.heap e) with
  | some r => rw [signUp_of_some toLowerCase s f l e p now r h]; exact ⟨rfl, rfl⟩
  | none =>
    rw [signUp_of_none toLowerCase s f l e p now h]
    refine ⟨rfl, ?_⟩
    cases hc : s.currentUser with
    | none => simp [session, hc]
    | some c =>
      have hlt : c < s.heap.length := hs.2.2 c hc
      simp [session, hc, List.getElem?_append_left hlt]

theorem login_not_success (s : AuthState) (e p : String)
    (h : (login toLowerCase s e p).1 ≠ LoginOutcome.success) :
    (login toLowerCase s e p).2 = s := by
  cases hf : s.users.find? (refMatches toLowerCase s.heap e) with
  | none => rw [login_of_none toLowerCase s e p hf]
  | some r =>
    obtain ⟨u, hu, -⟩ := refMatches_deref toLowerCase (List.find?_some hf)
    rw [login_of_some toLowerCase s e p r u hf hu] at h ⊢
    by_cases hp : u.password ≠ p
    · rw [if_pos hp]
    · rw [if_neg hp] at h
      exact absurd rfl h

/-! ## Logging in after a registration and after a reset -/

theorem find?_congr_mem {α : Type} (p q : α → Bool) (l : List α)
    (h : ∀ a ∈ l, p a = q a) : l.find? p = l.find? q := by
  induction l with
  | nil => rfl
  | cons a t ih =>
    have ha := h a (List.mem_cons_self a t)
    have ht : ∀ b ∈ t, p b = q b := fun b hb => h b (List.mem_cons_of_mem a hb)
    simp [List.find?_cons, ha, ih ht]

theorem refMatches_append (heap : List User) (x : User) (e : String) (r : Nat)
    (hr : r < heap.length) :
    refMatches toLowerCase (heap ++ [x]) e r = refMatches toLowerCase heap e r := by
  unfold refMatches
  rw [List.getElem?_append_left hr]

theorem refMatches_setPassword (heap : List User) (r0 : Nat) (p e : String) :
    refMatches toLowerCase (setPassword heap r0 p) e = refMatches toLowerCase heap e := by
  funext r
  unfold refMatches
  rw [getElem?_setPassword]
  by_cases hr : r = r0
  · rw [if_pos hr]
    cases heap[r]? <;> rfl
  · rw [if_neg hr]

theorem login_append (s : AuthState) (x : User) (hs : WellFormed s)
    (h : s.users.find? (refMatches toLowerCase s.heap x.email) = none) :
    login toLowerCase { s with heap := s.heap ++ [x], users := s.users ++ [s.heap.length] }
        x.email x.password =
      (LoginOutcome.success,
        { heap := s.heap ++ [x], users := s.users ++ [s.heap.length],
          currentUser := some s.heap.length }) := by
  have hold : s.users.find? (refMatches toLowerCase (s.heap ++ [x]) x.email) = none := by
    rw [find?_congr_mem _ (refMatches toLowerCase s.heap x.email) s.users
      (fun r hr => refMatches_append toLowerCase s.heap _ x.email r (hs.1 r hr))]
    exact h
  have hget : (s.heap ++ [x])[s.heap.length]? = some x := by simp
  have hfind : (s.users ++ [s.heap.length]).find?
      (refMatches toLowerCase (s.heap ++ [x]) x.email) = some s.heap.length := by
    rw [List.find?_append, hold]
    simp [List.find?_cons, refMatches, emailMatches]
  rw [login_of_some toLowerCase
    { s with heap := s.heap ++ [x], users := s.users ++ [s.heap.length] }
    x.email x.password s.heap.length x hfind hget]
  simp

theorem login_signUp (s : AuthState) (f l e p : String) (now : Nat) (hs : WellFormed s)
    (h : s.users.find? (refMatches toLowerCase s.heap e) = none) :
    (login toLowerCase (signUp toLowerCase s f l e p now).2 e p).1 = LoginOutcome.success ∧
      session (login toLowerCase (signUp toLowerCase s f l e p now).2 e p).2 =
        some { id := toString now, firstName := f, lastName := l, email := e,
               password := p } := by
  rw [signUp_of_none toLowerCase s f l e p now h]
  have hlog := login_append toLowerCase s
    { id := toString now, firstName := f, lastName := l, email := e, password := p } hs h
  simp only at hlog
  rw [hlog]
  simp [session]

theorem login_resetPassword (s : AuthState) (e newPass : String) (r : Nat) (u : User)
    (h : s.users.find? (refMatches toLowerCase s.heap e) = some r)
    (hu : s.heap[r]? = some u) (p : String) :
    login toLowerCase (resetPassword toLowerCase s e newPass).2 e p =
      if newPass ≠ p then
        (LoginOutcome.wrongPassword, (resetPassword toLowerCase s e newPass).2)
      else
        (LoginOutcome.success,
          { (resetPassword toLowerCase s e newPass).2 with currentUser := some r }) := by
  rw [resetPassword_of_some toLowerCase s e newPass r h]
  have hfind : s.users.find? (refMatches toLowerCase (setPassword s.heap r newPass) e) =
      some r := by
    rw [refMatches_setPassword]; exact h
  have hget : (setPassword s.heap r newPass)[r]? = some { u with password := newPass } := by
    rw [getElem?_setPassword, if_pos rfl, hu]; rfl
  exact login_of_some toLowerCase { s with heap := setPassword s.heap r newPass } e p r _
    hfind hget

theorem find?_users_of_mem (s : AuthState) (e : String)
    (h : ∃ u ∈ registry s, toLowerCase u.email = toLowerCase e) :
    ∃ r u, s.users.find? (refMatches toLowerCase s.heap e) = some r ∧ s.heap[r]? = some u := by
  cases hf : s.users.find? (refMatches toLowerCase s.heap e) with
  | none =>
    exact absurd h ((registry_find?_eq_none toLowerCase s e).mp
      ((find?_users_eq_none toLowerCase s e).mp hf))
  | some r =>
    obtain ⟨u, hu, -⟩ := refMatches_deref toLowerCase (List.find?_some hf)
    exact ⟨r, u, rfl, hu⟩

/-! ## The ids are the decimal renderings of the clock values read -/

theorem digitChar_val (m : Nat) (h : m < 10) : (Nat.digitChar m).toNat - 48 = m := by
  interval_cases m <;> rfl

theorem toDigitsCore_append (fuel : Nat) : ∀ (n : Nat) (ds : List Char),
    Nat.toDigitsCore 10 fuel n ds = Nat.toDigitsCore 10 fuel n [] ++ ds := by
  induction fuel with
  | zero => intro n ds; simp [Nat.toDigitsCore]
  | succ k ih =>
    intro n ds
    simp only [Nat.toDigitsCore]
    by_cases h : n / 10 = 0
    · simp [h]
    · simp only [h, if_false]
      rw [ih (n / 10) (Nat.digitChar (n % 10) :: ds), ih (n / 10) [Nat.digitChar (n % 10)]]
      simp

theorem decodeDigits_toDigitsCore (fuel : Nat) : ∀ n : Nat, n < fuel →
    decodeDigits (Nat.toDigitsCore 10 fuel n []) = n := by
  induction fuel with
  | zero => intro n h; omega
  | succ k ih =>
    intro n hn
    have hlt : n % 10 < 10 := Nat.mod_lt _ (by decide)
    simp only [Nat.toDigitsCore]
    by_cases h : n / 10 = 0
    · simp only [h, if_true, decodeDigits, List.foldl_cons, List.foldl_nil]
      rw [digitChar_val _ hlt]
      omega
    · simp only [h, if_false]
      rw [toDigitsCore_append]
      have h2 := ih (n / 10) (by omega)
      unfold decodeDigits at h2 ⊢
      rw [List.foldl_append, h2]
      simp only [List.foldl_cons, List.foldl_nil]
      rw [digitChar_val _ hlt]
      omega

theorem toString_nat_injective : Function.Injective (fun n : Nat => toString n) := by
  intro a b h
  have h1 : Nat.toDigits 10 a = Nat.toDigits 10 b := by
    have := congrArg String.data h
    simpa [toString, Nat.repr, List.asString] using this
  have ha := decodeDigits_toDigitsCore (a + 1) a (by omega)
  have hb := decodeDigits_toDigitsCore (b + 1) b (by omega)
  unfold Nat.toDigits at h1
  rw [← ha, ← hb, h1]

theorem ids_run (calls : List Call) : ∀ s : AuthState, WellFormed s →
    (registry (run toLowerCase s calls)).map User.id =
      (registry s).map User.id ++ (clockReads toLowerCase s calls).map (fun n => toString n) := by
  induction calls with
  | nil => intro s _; simp [run, clockReads]
  | cons c t ih =>
    intro s hs
    have hstep := ih (step toLowerCase s c) (wellFormed_step toLowerCase s c hs)
    have hrun : run toLowerCase s (c :: t) = run toLowerCase (step toLowerCase s c) t := rfl
    rw [hrun, hstep]
    cases c with
    | signUp f l e p now =>
      cases h : s.users.find? (refMatches toLowerCase s.heap e) with
      | some r =>
        simp [step, clockReads, signUp_of_some toLowerCase s f l e p now r h]
      | none =>
        have hr := registry_signUp toLowerCase s f l e p now hs h
        have h1 : (signUp toLowerCase s f l e p now).1 = true := by
          rw [signUp_of_none toLowerCase s f l e p now h]
        simp [step, clockReads, hr, h1]
    | login e p => simp [step, clockReads, registry_login]
    | logout => simp [step, clockReads, registry_logout]
    | resetPassword e p =>
      simp [step, clockReads,
        registry_resetPassword_map toLowerCase User.id (fun _ _ => rfl) s e p hs]

end Lemmas

/-! ## The claims -/

/-- C1. In every state reached from the state at mount by a finite sequence of
`signUp`, `login`, `logout` and `resetPassword` calls with arbitrary arguments,
no two distinct entries of the `users` registry have e-mail addresses that are
equal after `toLowerCase`. -/
theorem registry_emails_pairwise_distinct (toLowerCase : String → String)
    (calls : List Call) :
    (registry (run toLowerCase initial calls)).Pairwise
      (fun a b => toLowerCase a.email ≠ toLowerCase b.email) := by
  have h := emailsUnique_run toLowerCase calls
  unfold EmailsUnique List.Nodup at h
  exact List.pairwise_map.mp h

/-- C2. For every state and all strings, `signUp` returns `false` exactly when
some registered user has an e-mail address equal to the given one after
lower-casing both, and a `signUp` that returns `false` leaves the whole state
(registry and current user) as it was.  On the sample state, registering
`"ANN@x.com"` next to `"ann@x.com"` is refused, and a one-character password
with a malformed address is accepted. -/
theorem signUp_false_iff_duplicate :
    (∀ (toLowerCase : String → String) (s : AuthState)
        (firstName lastName email password : String) (now : Nat),
      ((signUp toLowerCase s firstName lastName email password now).1 = false ↔
          ∃ u ∈ registry s, toLowerCase u.email = toLowerCase email) ∧
        ((signUp toLowerCase s firstName lastName email password now).1 = false →
          (signUp toLowerCase s firstName lastName email password now).2 = s)) ∧
      (signUp asciiToLowerCase sampleState "A" "B" "ANN@x.com" "Zzzz999!" 1003).1 = false ∧
      (signUp asciiToLowerCase sampleState "A" "B" "not an address" "x" 1003).1 = true := by
  refine ⟨?_, by decide, by decide⟩
  intro toLowerCase s f l e p now
  cases h : s.users.find? (refMatches toLowerCase s.heap e) with
  | some r =>
    rw [signUp_of_some toLowerCase s f l e p now r h]
    refine ⟨⟨fun _ => ?_, fun _ => rfl⟩, fun _ => rfl⟩
    by_contra hc
    have h1 := (find?_users_eq_none toLowerCase s e).mpr
      ((registry_find?_eq_none toLowerCase s e).mpr hc)
    rw [h] at h1
    exact Option.noConfusion h1
  | none =>
    rw [signUp_of_none toLowerCase s f l e p now h]
    have hno := (registry_find?_eq_none toLowerCase s e).mp
      ((find?_users_eq_none toLowerCase s e).mp h)
    refine ⟨⟨fun hf => ?_, fun hex => absurd hex hno⟩, fun hf => ?_⟩
    · exact Bool.noConfusion hf
    · exact Bool.noConfusion hf

/-- C3. For every well-formed state in which no registered e-mail address
matches the given one case-insensitively, `signUp` returns `true`, and the new
registry is the old one, unchanged and in the same order, followed by exactly
one new user carrying the argument strings as given (the address is not
lower-cased); the registry grows by exactly one. -/
theorem signUp_appends_new_user (toLowerCase : String → String) (s : AuthState)
    (firstName lastName email password : String) (now : Nat)
    (hs : WellFormed s)
    (hnew : ∀ u ∈ registry s, toLowerCase u.email ≠ toLowerCase email) :
    (signUp toLowerCase s firstName lastName email password now).1 = true ∧
      registry (signUp toLowerCase s firstName lastName email password now).2 =
        registry s ++ [{ id := toString now, firstName := firstName, lastName := lastName,
                         email := email, password := password }] ∧
      (registry (signUp toLowerCase s firstName lastName email password now).2).length =
        (registry s).length + 1 := by
  have hno : ¬ ∃ u ∈ registry s, toLowerCase u.email = toLowerCase email :=
    fun ⟨u, hu, he⟩ => hnew u hu he
  have h := (find?_users_eq_none toLowerCase s email).mpr
    ((registry_find?_eq_none toLowerCase s email).mpr hno)
  have hr := registry_signUp toLowerCase s firstName lastName email password now hs h
  refine ⟨?_, hr, ?_⟩
  · rw [signUp_of_none toLowerCase s firstName lastName email password now h]
  · rw [hr]; simp

/-- Witness for C3: Cy registers with `"Cy@X.com"` on the sample state. -/
theorem signUp_appends_new_user_witness :
    WellFormed sampleState ∧
      (∀ u ∈ registry sampleState, asciiToLowerCase u.email ≠ asciiToLowerCase "Cy@X.com") ∧
      (signUp asciiToLowerCase sampleState "Cy" "Poe" "Cy@X.com" "Mnop012%" 1003).1 = true ∧
      registry (signUp asciiToLowerCase sampleState "Cy" "Poe" "Cy@X.com" "Mnop012%" 1003).2 =
        registry sampleState ++ [{ id := toString 1003, firstName := "Cy", lastName := "Poe",
                                   email := "Cy@X.com", password := "Mnop012%" }] ∧
      (registry (signUp asciiToLowerCase sampleState "Cy" "Poe" "Cy@X.com" "Mnop012%"
        1003).2).length = (registry sampleState).length + 1 :=
  ⟨by decide, by decide,
    signUp_appends_new_user asciiToLowerCase sampleState "Cy" "Poe" "Cy@X.com" "Mnop012%" 1003
      (by decide) (by decide)⟩

/-- C4. For every state and all strings, `login` ends in the user-not-found
branch when no registered e-mail address matches the given one
case-insensitively; otherwise, with `u` the first registered user whose address
matches, it ends in the wrong-password branch when `u.password` differs from
the given password, and else succeeds, the current user becoming that stored
record.  The failing branches leave the state as it was.  After Ann registers
as `"ann@x.com"`, logging in as `"ANN@X.COM"` succeeds and the current user
keeps the address `"ann@x.com"` given at registration. -/
theorem login_outcome :
    (∀ (toLowerCase : String → String) (s : AuthState) (email password : String),
      ((∀ u ∈ registry s, toLowerCase u.email ≠ toLowerCase email) →
          login toLowerCase s email password = (LoginOutcome.userNotFound, s)) ∧
        (∀ u, (registry s).find? (fun v => toLowerCase v.email == toLowerCase email) = some u →
          (u.password ≠ password →
            login toLowerCase s email password = (LoginOutcome.wrongPassword, s)) ∧
          (u.password = password →
            (login toLowerCase s email password).1 = LoginOutcome.success ∧
              session (login toLowerCase s email password).2 = some u ∧
              registry (login toLowerCase s email password).2 = registry s))) ∧
      (login asciiToLowerCase annState "ANN@X.COM" "Abcd123!").1 = LoginOutcome.success ∧
      session (login asciiToLowerCase annState "ANN@X.COM" "Abcd123!").2 =
        some { id := "1000", firstName := "Ann", lastName := "Lee", email := "ann@x.com",
               password := "Abcd123!" } ∧
      (login asciiToLowerCase annState "ann@x.com" "wrong").1 = LoginOutcome.wrongPassword ∧
      (login asciiToLowerCase annState "bob@x.com" "Abcd123!").1 =
        LoginOutcome.userNotFound := by
  refine ⟨?_, by decide, by decide, by decide, by decide⟩
  intro toLowerCase s e p
  refine ⟨fun hno => ?_, fun u hu => ?_⟩
  · have h := (find?_users_eq_none toLowerCase s e).mpr
      ((registry_find?_eq_none toLowerCase s e).mpr (fun ⟨u, hu, he⟩ => hno u hu he))
    exact login_of_none toLowerCase s e p h
  · change (registry s).find? (emailMatches toLowerCase e) = some u at hu
    cases h : s.users.find? (refMatches toLowerCase s.heap e) with
    | none =>
      rw [(find?_users_eq_none toLowerCase s e).mp h] at hu
      exact Option.noConfusion hu
    | some r =>
      have hd : s.heap[r]? = some u := by
        rw [find?_registry, h] at hu
        exact hu
      rw [login_of_some toLowerCase s e p r u h hd]
      refine ⟨fun hp => by rw [if_pos hp], fun hp => ?_⟩
      rw [if_neg (not_not.mpr hp)]
      exact ⟨rfl, hd, rfl⟩

/-- C5. The session changes only through a successful `login` and through
`logout`: in every well-formed state a `signUp` call (successful or not), a
`resetPassword` call (successful or not) and a `login` call that does not end
in success each leave `currentUser` referring to the same object, so the
session is empty if it was empty and otherwise has the same id, names and
e-mail address. -/
theorem session_frame (toLowerCase : String → String) (s : AuthState) (hs : WellFormed s) :
    (∀ firstName lastName email password now,
      (signUp toLowerCase s firstName lastName email password now).2.currentUser =
          s.currentUser ∧
        session (signUp toLowerCase s firstName lastName email password now).2 = session s) ∧
    (∀ email newPassword,
      (resetPassword toLowerCase s email newPassword).2.currentUser = s.currentUser ∧
        ((session (resetPassword toLowerCase s email newPassword).2).isNone =
          (session s).isNone) ∧
        (session (resetPassword toLowerCase s email newPassword).2).map
            (fun u => (u.id, u.firstName, u.lastName, u.email)) =
          (session s).map (fun u => (u.id, u.firstName, u.lastName, u.email))) ∧
    (∀ email password,
      (login toLowerCase s email password).1 ≠ LoginOutcome.success →
        (login toLowerCase s email password).2.currentUser = s.currentUser ∧
          session (login toLowerCase s email password).2 = session s) := by
  refine ⟨fun f l e p now => session_signUp toLowerCase s f l e p now hs, fun e p => ?_,
    fun e p h => ?_⟩
  · obtain ⟨h1, g, hg, h2⟩ := session_resetPassword toLowerCase s e p
    refine ⟨h1, ?_, ?_⟩
    · rw [h2]; cases session s <;> rfl
    · rw [h2]
      cases session s with
      | none => rfl
      | some u =>
        rcases hg u with hu | hu <;> simp [hu]
  · rw [login_not_success toLowerCase s e p h]
    exact ⟨rfl, rfl⟩

/-- Witness for C5: the sample state, where Ann is logged in; resetting her
password keeps her session. -/
theorem session_frame_witness :
    WellFormed sampleState ∧
      (session (resetPassword asciiToLowerCase sampleState "ann@x.com" "Qrst345^").2).map
          (fun u => (u.id, u.firstName, u.lastName, u.email)) =
        some ("1000", "Ann", "Lee", "ann@x.com") ∧
      (session (resetPassword asciiToLowerCase sampleState "ann@x.com" "Qrst345^").2).map
          (fun u => (u.id, u.firstName, u.lastName, u.email)) =
        (session sampleState).map (fun u => (u.id, u.firstName, u.lastName, u.email)) :=
  ⟨by decide, by decide,
    ((session_frame asciiToLowerCase sampleState (by decide)).2.1 "ann@x.com" "Qrst345^").2.2⟩

/-- C6. For every state reached from the state at mount and all strings, if
`signUp(firstName, lastName, email, password)` returns `true`, then
`login(email, password)` on the resulting state succeeds, and the current user
it sets has `firstName`, `lastName`, `email` and `password` equal to the strings
submitted to `signUp`. -/
theorem login_after_signUp (toLowerCase : String → String) (calls : List Call)
    (firstName lastName email password : String) (now : Nat)
    (hok : (signUp toLowerCase (run toLowerCase initial calls)
      firstName lastName email password now).1 = true) :
    (login toLowerCase (signUp toLowerCase (run toLowerCase initial calls)
        firstName lastName email password now).2 email password).1 = LoginOutcome.success ∧
      ∃ u, session (login toLowerCase (signUp toLowerCase (run toLowerCase initial calls)
          firstName lastName email password now).2 email password).2 = some u ∧
        u.firstName = firstName ∧ u.lastName = lastName ∧ u.email = email ∧
        u.password = password := by
  have hs := wellFormed_run toLowerCase calls
  cases h : (run toLowerCase initial calls).users.find?
      (refMatches toLowerCase (run toLowerCase initial calls).heap email) with
  | some r =>
    rw [signUp_of_some toLowerCase _ firstName lastName email password now r h] at hok
    exact Bool.noConfusion hok
  | none =>
    obtain ⟨h1, h2⟩ := login_signUp toLowerCase _ firstName lastName email password now hs h
    exact ⟨h1, _, h2, rfl, rfl, rfl, rfl⟩

/-- Witness for C6: after the sample session Cy registers and logs in. -/
theorem login_after_signUp_witness :
    (signUp asciiToLowerCase (run asciiToLowerCase initial sampleCalls)
        "Cy" "Poe" "Cy@X.com" "Mnop012%" 1003).1 = true ∧
      (login asciiToLowerCase (signUp asciiToLowerCase (run asciiToLowerCase initial sampleCalls)
        "Cy" "Poe" "Cy@X.com" "Mnop012%" 1003).2 "Cy@X.com" "Mnop012%").1 =
          LoginOutcome.success :=
  ⟨by decide,
    (login_after_signUp asciiToLowerCase sampleCalls "Cy" "Poe" "Cy@X.com" "Mnop012%" 1003
      (by decide)).1⟩

/-- Counterexample to C7 as stated: after Ann registers with password
`"Abcd123!"`, resetting her password to that same string returns `true`, and
logging in with the old password then succeeds instead of ending in the
wrong-password branch. -/
theorem login_old_password_after_reset_counterexample :
    ¬ ∀ (calls : List Call) (email oldPass newPass : String),
      (∃ u ∈ registry (run asciiToLowerCase initial calls),
        asciiToLowerCase u.email = asciiToLowerCase email ∧ u.password = oldPass) →
      (resetPassword asciiToLowerCase (run asciiToLowerCase initial calls)
        email newPass).1 = true →
      (login asciiToLowerCase (resetPassword asciiToLowerCase
          (run asciiToLowerCase initial calls) email newPass).2 email oldPass).1 =
          LoginOutcome.wrongPassword ∧
        (login asciiToLowerCase (resetPassword asciiToLowerCase
          (run asciiToLowerCase initial calls) email newPass).2 email newPass).1 =
          LoginOutcome.success := by
  intro h
  have h1 := (h [Call.signUp "Ann" "Lee" "ann@x.com" "Abcd123!" 1000]
    "ann@x.com" "Abcd123!" "Abcd123!" (by decide) (by decide)).1
  revert h1
  decide

/-- C7, amended. For every state reached from the state at mount whose registry
contains a user for `email` with stored password `oldPass`, and every string
`newPass` different from `oldPass`: `resetPassword(email, newPass)` returns
`true`, and after it `login(email, oldPass)` ends in the wrong-password branch
and `login(email, newPass)` succeeds. -/
theorem login_after_resetPassword (toLowerCase : String → String) (calls : List Call)
    (email oldPass newPass : String)
    (hu : ∃ u ∈ registry (run toLowerCase initial calls),
      toLowerCase u.email = toLowerCase email ∧ u.password = oldPass)
    (hne : newPass ≠ oldPass) :
    (resetPassword toLowerCase (run toLowerCase initial calls) email newPass).1 = true ∧
      (login toLowerCase (resetPassword toLowerCase (run toLowerCase initial calls)
        email newPass).2 email oldPass).1 = LoginOutcome.wrongPassword ∧
      (login toLowerCase (resetPassword toLowerCase (run toLowerCase initial calls)
        email newPass).2 email newPass).1 = LoginOutcome.success := by
  obtain ⟨u, hmem, hmail, -⟩ := hu
  obtain ⟨r, v, hf, hv⟩ := find?_users_of_mem toLowerCase _ email ⟨u, hmem, hmail⟩
  refine ⟨?_, ?_, ?_⟩
  · rw [resetPassword_of_some toLowerCase _ email newPass r hf]
  · rw [login_resetPassword toLowerCase _ email newPass r v hf hv oldPass, if_pos hne]
  · rw [login_resetPassword toLowerCase _ email newPass r v hf hv newPass,
      if_neg (not_not.mpr rfl)]

/-- Witness for C7: Bob, registered in the sample session with `"Efgh456#"`,
resets his password to `"Uvwx678&"`. -/
theorem login_after_resetPassword_witness :
    (∃ u ∈ registry (run asciiToLowerCase initial sampleCalls),
        asciiToLowerCase u.email = asciiToLowerCase "Bob@x.com" ∧ u.password = "Efgh456#") ∧
      (resetPassword asciiToLowerCase (run asciiToLowerCase initial sampleCalls)
        "Bob@x.com" "Uvwx678&").1 = true ∧
      (login asciiToLowerCase (resetPassword asciiToLowerCase
          (run asciiToLowerCase initial sampleCalls) "Bob@x.com" "Uvwx678&").2
          "Bob@x.com" "Efgh456#").1 = LoginOutcome.wrongPassword ∧
      (login asciiToLowerCase (resetPassword asciiToLowerCase
          (run asciiToLowerCase initial sampleCalls) "Bob@x.com" "Uvwx678&").2
          "Bob@x.com" "Uvwx678&").1 = LoginOutcome.success :=
  ⟨by decide,
    login_after_resetPassword asciiToLowerCase sampleCalls "Bob@x.com" "Efgh456#" "Uvwx678&"
      (by decide) (by decide)⟩

/-- C8. For every state and all strings, `resetPassword` returns `false`
exactly when no registered user has an e-mail address matching the given one
case-insensitively, and a `resetPassword` that returns `false` leaves the state
(hence the registry: same users, same fields, same order) as it was. -/
theorem resetPassword_false_iff_unregistered (toLowerCase : String → String) (s : AuthState)
    (email newPassword : String) :
    ((resetPassword toLowerCase s email newPassword).1 = false ↔
        ∀ u ∈ registry s, toLowerCase u.email ≠ toLowerCase email) ∧
      ((resetPassword toLowerCase s email newPassword).1 = false →
        (resetPassword toLowerCase s email newPassword).2 = s ∧
          registry (resetPassword toLowerCase s email newPassword).2 = registry s) := by
  cases h : s.users.find? (refMatches toLowerCase s.heap email) with
  | none =>
    rw [resetPassword_of_none toLowerCase s email newPassword h]
    have hno := (registry_find?_eq_none toLowerCase s email).mp
      ((find?_users_eq_none toLowerCase s email).mp h)
    exact ⟨⟨fun _ u hu he => hno ⟨u, hu, he⟩, fun _ => rfl⟩, fun _ => ⟨rfl, rfl⟩⟩
  | some r =>
    rw [resetPassword_of_some toLowerCase s email newPassword r h]
    refine ⟨⟨fun hf => Bool.noConfusion hf, fun hall => ?_⟩, fun hf => Bool.noConfusion hf⟩
    have h1 := (find?_users_eq_none toLowerCase s email).mpr
      ((registry_find?_eq_none toLowerCase s email).mpr (fun ⟨u, hu, he⟩ => hall u hu he))
    rw [h] at h1
    exact Option.noConfusion h1

/-- C9. For every well-formed state in which some registered e-mail address
matches the given one case-insensitively, `resetPassword` returns `true`; with
`i` the position of the first matching user `u`, the new registry is the old
one with entry `i` replaced by `u` with `password := newPassword`: same length
and order, every other entry unchanged, and at entry `i` the id, names and
e-mail address unchanged. -/
theorem resetPassword_updates_first_match (toLowerCase : String → String) (s : AuthState)
    (email newPassword : String) (hs : WellFormed s)
    (hreg : ∃ u ∈ registry s, toLowerCase u.email = toLowerCase email) :
    (resetPassword toLowerCase s email newPassword).1 = true ∧
      ∃ u, (registry s).find? (fun v => toLowerCase v.email == toLowerCase email) = some u ∧
        (registry s)[(registry s).findIdx
          (fun v => toLowerCase v.email == toLowerCase email)]? = some u ∧
        registry (resetPassword toLowerCase s email newPassword).2 =
          (registry s).set
            ((registry s).findIdx (fun v => toLowerCase v.email == toLowerCase email))
            { id := u.id, firstName := u.firstName, lastName := u.lastName,
              email := u.email, password := newPassword } ∧
        (registry (resetPassword toLowerCase s email newPassword).2).length =
          (registry s).length ∧
        ∀ j, j ≠ (registry s).findIdx (fun v => toLowerCase v.email == toLowerCase email) →
          (registry (resetPassword toLowerCase s email newPassword).2)[j]? =
            (registry s)[j]? := by
  obtain ⟨r, u, hf, hu⟩ := find?_users_of_mem toLowerCase s email hreg
  have hreset := registry_resetPassword toLowerCase s email newPassword r u hs hf hu
  obtain ⟨h1, h2⟩ := registry_first_match toLowerCase s email r u hf hu
  refine ⟨?_, u, h1, h2, hreset, ?_, ?_⟩
  · rw [resetPassword_of_some toLowerCase s email newPassword r hf]
  · rw [hreset, List.length_set]
  · intro j hj
    change j ≠ (registry s).findIdx (emailMatches toLowerCase email) at hj
    rw [hreset, List.getElem?_set_ne (Ne.symm hj)]

/-- Witness for C9: on the sample state, resetting the password for
`"BOB@x.com"` changes the second entry only. -/
theorem resetPassword_updates_first_match_witness :
    WellFormed sampleState ∧
      (∃ u ∈ registry sampleState, asciiToLowerCase u.email = asciiToLowerCase "BOB@x.com") ∧
      registry (resetPassword asciiToLowerCase sampleState "BOB@x.com" "Uvwx678&").2 =
        [{ id := "1000", firstName := "Ann", lastName := "Lee", email := "ann@x.com",
           password := "Newpw1!" },
         { id := "1001", firstName := "Bob", lastName := "Ray", email := "bob@x.com",
           password := "Uvwx678&" }] ∧
      (resetPassword asciiToLowerCase sampleState "BOB@x.com" "Uvwx678&").1 = true :=
  ⟨by decide, by decide, by decide,
    (resetPassword_updates_first_match asciiToLowerCase sampleState "BOB@x.com" "Uvwx678&"
      (by decide) (by decide)).1⟩

/-- Counterexample to C10 as stated: two registrations that read the same clock
value `1000` leave two registered users with the same id `"1000"`. -/
theorem ids_distinct_counterexample :
    ¬ ∀ calls : List Call,
      (registry (run asciiToLowerCase initial calls)).Pairwise (fun a b => a.id ≠ b.id) := by
  intro h
  have h1 := h [Call.signUp "Ann" "Lee" "ann@x.com" "Abcd123!" 1000,
    Call.signUp "Bob" "Ray" "bob@x.com" "Efgh456#" 1000]
  revert h1
  decide

/-- C10, amended. In every state reached from the state at mount by a sequence
of `signUp`, `login`, `logout` and `resetPassword` calls, the ids of the
registered users are the decimal renderings of the clock values read by the
successful `signUp` calls, in registration order; they are pairwise distinct
provided those clock values are pairwise distinct. -/
theorem ids_distinct_of_clock_distinct (toLowerCase : String → String) (calls : List Call) :
    (registry (run toLowerCase initial calls)).map User.id =
        (clockReads toLowerCase initial calls).map (fun n => toString n) ∧
      ((clockReads toLowerCase initial calls).Nodup →
        (registry (run toLowerCase initial calls)).Pairwise (fun a b => a.id ≠ b.id)) := by
  have h := ids_run toLowerCase calls initial wellFormed_initial
  have h0 : (registry initial).map User.id = [] := rfl
  rw [h0, List.nil_append] at h
  refine ⟨h, fun hclock => ?_⟩
  have hnd : ((registry (run toLowerCase initial calls)).map User.id).Nodup := by
    rw [h]
    exact List.Nodup.map toString_nat_injective hclock
  exact List.pairwise_map.mp hnd

/-- Witness for C10: the sample session reads the clock at `1000` and `1001`
and its ids are distinct; two registrations that both read `1000` get the ids
`"1000"` and `"1000"`. -/
theorem ids_distinct_of_clock_distinct_witness :
    (clockReads asciiToLowerCase initial sampleCalls).Nodup ∧
      clockReads asciiToLowerCase initial sampleCalls = [1000, 1001] ∧
      (registry (run asciiToLowerCase initial sampleCalls)).Pairwise
        (fun a b => a.id ≠ b.id) ∧
      clockReads asciiToLowerCase initial
          [Call.signUp "Ann" "Lee" "ann@x.com" "Abcd123!" 1000,
           Call.signUp "Bob" "Ray" "bob@x.com" "Efgh456#" 1000] = [1000, 1000] ∧
      (registry (run asciiToLowerCase initial
          [Call.signUp "Ann" "Lee" "ann@x.com" "Abcd123!" 1000,
           Call.signUp "Bob" "Ray" "bob@x.com" "Efgh456#" 1000])).map User.id =
        (clockReads asciiToLowerCase initial
          [Call.signUp "Ann" "Lee" "ann@x.com" "Abcd123!" 1000,
           Call.signUp "Bob" "Ray" "bob@x.com" "Efgh456#" 1000]).map (fun n => toString n) :=
  ⟨by decide, by decide,
    (ids_distinct_of_clock_distinct asciiToLowerCase sampleCalls).2 (by decide),
    by decide,
    (ids_distinct_of_clock_distinct asciiToLowerCase
      [Call.signUp "Ann" "Lee" "ann@x.com" "Abcd123!" 1000,
       Call.signUp "Bob" "Ray" "bob@x.com" "Efgh456#" 1000]).1⟩

end AuthContext

/-! ## What the matcher accepts -/

namespace RegExp

theorem matchMany_iff (p : Nat → Bool) (k : Nat → List Nat → Bool) :
    ∀ (xs : List Nat) (min pos : Nat),
      matchMany p min pos xs k = true ↔
        ∃ u rest, xs = u ++ rest ∧ (∀ c ∈ u, p c = true) ∧ min ≤ u.length ∧
          k (pos + u.length) rest = true := by
  intro xs
  induction xs with
  | nil =>
    intro min pos
    simp only [matchMany, Bool.and_eq_true, beq_iff_eq]
    constructor
    · rintro ⟨hmin, hk⟩
      exact ⟨[], [], rfl, by simp, by simp [hmin], by simpa using hk⟩
    · rintro ⟨u, rest, hs, -, hmin, hk⟩
      obtain ⟨hu, hrest⟩ := List.append_eq_nil.mp hs.symm
      subst hu; subst hrest
      exact ⟨by simpa using hmin, by simpa using hk⟩
  | cons x xs ih =>
    intro min pos
    simp only [matchMany, Bool.or_eq_true, Bool.and_eq_true, beq_iff_eq, ih]
    constructor
    · rintro (⟨hx, u, rest, hs, hall, hmin, hk⟩ | ⟨hmin, hk⟩)
      · refine ⟨x :: u, rest, by simp [hs], ?_, by simp; omega, ?_⟩
        · intro c hc
          rcases List.mem_cons.mp hc with rfl | hc
          · exact hx
          · exact hall c hc
        · have he : pos + (x :: u).length = pos + 1 + u.length := by simp; omega
          rw [he]; exact hk
      · exact ⟨[], x :: xs, rfl, by simp, by simp [hmin], by simpa using hk⟩
    · rintro ⟨u, rest, hs, hall, hmin, hk⟩
      cases u with
      | nil =>
        right
        have hr : rest = x :: xs := by simpa using hs.symm
        subst hr
        exact ⟨by simpa using hmin, by simpa using hk⟩
      | cons y u =>
        left
        have hxy : x = y ∧ xs = u ++ rest := by simpa using hs
        obtain ⟨rfl, hxs⟩ := hxy
        refine ⟨hall x (List.mem_cons_self x u), u, rest, hxs,
          fun c hc => hall c (List.mem_cons_of_mem x hc), ?_, ?_⟩
        · simp at hmin; omega
        · have he : pos + (x :: u).length = pos + 1 + u.length := by simp; omega
          rw [he] at hk; exact hk

theorem run_charClass_iff (p : Nat → Bool) (k : Nat → List Nat → Bool) (pos : Nat)
    (xs : List Nat) :
    (Pattern.charClass p).run pos xs k = true ↔
      ∃ c rest, xs = c :: rest ∧ p c = true ∧ k (pos + 1) rest = true := by
  cases xs with
  | nil => simp [Pattern.run]
  | cons x xs =>
    simp only [Pattern.run, Bool.and_eq_true]
    constructor
    · rintro ⟨h1, h2⟩
      exact ⟨x, xs, rfl, h1, h2⟩
    · rintro ⟨c, rest, hs, h1, h2⟩
      obtain ⟨rfl, rfl⟩ : x = c ∧ xs = rest := by simpa using hs
      exact ⟨h1, h2⟩

theorem testFrom_iff (r : Pattern) : ∀ (s : List Nat) (pos : Nat),
    testFrom r pos s = true ↔
      ∃ pre rest, s = pre ++ rest ∧ r.run (pos + pre.length) rest (fun _ _ => true) = true := by
  intro s
  induction s with
  | nil =>
    intro pos
    simp only [testFrom]
    constructor
    · intro h
      exact ⟨[], [], rfl, by simpa using h⟩
    · rintro ⟨pre, rest, hs, h⟩
      obtain ⟨hu, hrest⟩ := List.append_eq_nil.mp hs.symm
      subst hu; subst hrest
      simpa using h
  | cons x xs ih =>
    intro pos
    simp only [testFrom, Bool.or_eq_true, ih]
    constructor
    · rintro (h | ⟨pre, rest, hs, h⟩)
      · exact ⟨[], x :: xs, rfl, by simpa using h⟩
      · refine ⟨x :: pre, rest, by simp [hs], ?_⟩
        have he : pos + (x :: pre).length = pos + 1 + pre.length := by simp; omega
        rw [he]; exact h
    · rintro ⟨pre, rest, hs, h⟩
      cases pre with
      | nil =>
        left
        have hr : rest = x :: xs := by simpa using hs.symm
        subst hr
        simpa using h
      | cons y pre =>
        right
        have hxy : x = y ∧ xs = pre ++ rest := by simpa using hs
        obtain ⟨rfl, hxs⟩ := hxy
        refine ⟨pre, rest, hxs, ?_⟩
        have he : pos + (x :: pre).length = pos + 1 + pre.length := by simp; omega
        rw [he] at h; exact h

theorem emailRegex_run_iff (pos : Nat) (s : List Nat) :
    LoginScreen.emailRegex.run pos s (fun _ _ => true) = true ↔
      ∃ u v w post, s = u ++ 64 :: (v ++ 46 :: (w ++ post)) ∧
        (∀ c ∈ u, nonWhiteSpace c = true) ∧ 1 ≤ u.length ∧
        (∀ c ∈ v, nonWhiteSpace c = true) ∧ 1 ≤ v.length ∧
        (∀ c ∈ w, nonWhiteSpace c = true) ∧ 1 ≤ w.length := by
  simp only [LoginScreen.emailRegex, Pattern.run, matchMany_iff, run_charClass_iff, literal,
    beq_iff_eq]
  constructor
  · rintro ⟨u, r1, hs, hu, hul, c1, r2, h1, hc1, v, r3, h2, hv, hvl, c2, r4, h3, hc2, w, post,
      h4, hw, hwl, -⟩
    subst hc1; subst hc2
    exact ⟨u, v, w, post, by rw [hs, h1, h2, h3, h4], hu, hul, hv, hvl, hw, hwl⟩
  · rintro ⟨u, v, w, post, hs, hu, hul, hv, hvl, hw, hwl⟩
    exact ⟨u, _, hs, hu, hul, 64, _, rfl, rfl, v, _, rfl, hv, hvl, 46, _, rfl, rfl, w, post,
      rfl, hw, hwl, trivial⟩

theorem emailRegex_test_iff (s : List Nat) :
    test LoginScreen.emailRegex s = true ↔
      ∃ pre u v w post, s = pre ++ (u ++ 64 :: (v ++ 46 :: (w ++ post))) ∧
        (∀ c ∈ u, nonWhiteSpace c = true) ∧ 1 ≤ u.length ∧
        (∀ c ∈ v, nonWhiteSpace c = true) ∧ 1 ≤ v.length ∧
        (∀ c ∈ w, nonWhiteSpace c = true) ∧ 1 ≤ w.length := by
  unfold test
  rw [testFrom_iff]
  simp only [emailRegex_run_iff]
  constructor
  · rintro ⟨pre, rest, hs, u, v, w, post, hr, h⟩
    exact ⟨pre, u, v, w, post, by rw [hs, hr], h⟩
  · rintro ⟨pre, u, v, w, post, hs, h⟩
    exact ⟨pre, _, hs, u, v, w, post, rfl, h⟩

theorem lookahead_iff (q : Nat → Bool) (s : List Nat)
    (hs : ∀ c ∈ s, anyChar c = true) :
    (∃ u rest, s = u ++ rest ∧ (∀ c ∈ u, anyChar c = true) ∧ 0 ≤ u.length ∧
        ∃ c rest1, rest = c :: rest1 ∧ q c = true ∧ True) ↔
      ∃ c ∈ s, q c = true := by
  constructor
  · rintro ⟨u, rest, h, -, -, c, rest1, hr, hq, -⟩
    exact ⟨c, by rw [h, hr]; simp, hq⟩
  · rintro ⟨c, hc, hq⟩
    obtain ⟨u, t, ht⟩ := List.append_of_mem hc
    refine ⟨u, c :: t, ht, ?_, Nat.zero_le _, c, t, rfl, hq, trivial⟩
    intro d hd
    exact hs d (by rw [ht]; exact List.mem_append_left _ hd)

theorem wholeInput_iff (s : List Nat) (n : Nat) :
    (∃ u rest, s = u ++ rest ∧ (∀ c ∈ u, anyChar c = true) ∧ n ≤ u.length ∧
        rest = [] ∧ True) ↔
      (∀ c ∈ s, anyChar c = true) ∧ n ≤ s.length := by
  constructor
  · rintro ⟨u, rest, h, hu, hn, hr, -⟩
    subst hr
    rw [List.append_nil] at h
    subst h
    exact ⟨hu, hn⟩
  · rintro ⟨h1, h2⟩
    exact ⟨s, [], by simp, h1, h2, rfl, trivial⟩

theorem passwordRegex_run_iff (s : List Nat) :
    LoginScreen.passwordRegex.run 0 s (fun _ _ => true) = true ↔
      8 ≤ s.length ∧ (∀ c ∈ s, isLineTerminator c = false) ∧
        (∃ c ∈ s, lowerCase c = true) ∧ (∃ c ∈ s, upperCase c = true) ∧
        (∃ c ∈ s, digit c = true) ∧ (∃ c ∈ s, special c = true) := by
  simp only [LoginScreen.passwordRegex, Pattern.run, Bool.and_eq_true, matchMany_iff,
    run_charClass_iff, beq_iff_eq, List.isEmpty_iff, wholeInput_iff]
  have hany : (∀ c ∈ s, anyChar c = true) ↔ ∀ c ∈ s, isLineTerminator c = false := by
    simp [anyChar]
  constructor
  · rintro ⟨-, h1, h2, h3, h4, hall, hlen⟩
    exact ⟨hlen, hany.mp hall, (lookahead_iff _ s hall).mp h1, (lookahead_iff _ s hall).mp h2,
      (lookahead_iff _ s hall).mp h3, (lookahead_iff _ s hall).mp h4⟩
  · rintro ⟨hlen, hall, h1, h2, h3, h4⟩
    have hall2 := hany.mpr hall
    exact ⟨trivial, (lookahead_iff _ s hall2).mpr h1, (lookahead_iff _ s hall2).mpr h2,
      (lookahead_iff _ s hall2).mpr h3, (lookahead_iff _ s hall2).mpr h4, hall2, hlen⟩

theorem testFrom_assertStart_later (r : Pattern) : ∀ (t : List Nat) (pos : Nat),
    testFrom (Pattern.seq Pattern.assertStart r) (pos + 1) t = false := by
  intro t
  induction t with
  | nil => intro pos; simp [testFrom, Pattern.run]
  | cons x xs ih =>
    intro pos
    simp only [testFrom, ih, Bool.or_false]
    simp [Pattern.run]

theorem passwordRegex_test_eq (s : List Nat) :
    test LoginScreen.passwordRegex s = LoginScreen.passwordRegex.run 0 s (fun _ _ => true) := by
  unfold test
  cases s with
  | nil => rfl
  | cons x xs =>
    have h := testFrom_assertStart_later
      (Pattern.seq
        (Pattern.lookahead
          (Pattern.seq (Pattern.repeatClass anyChar 0) (Pattern.charClass lowerCase)))
        (Pattern.seq
          (Pattern.lookahead
            (Pattern.seq (Pattern.repeatClass anyChar 0) (Pattern.charClass upperCase)))
          (Pattern.seq
            (Pattern.lookahead
              (Pattern.seq (Pattern.repeatClass anyChar 0) (Pattern.charClass digit)))
            (Pattern.seq
              (Pattern.lookahead
                (Pattern.seq (Pattern.repeatClass anyChar 0) (Pattern.charClass special)))
              (Pattern.seq (Pattern.repeatClass anyChar 8) Pattern.assertEnd))))) xs 0
    have h2 : testFrom LoginScreen.passwordRegex (0 + 1) xs = false := h
    simp only [testFrom, h2, Bool.or_false]

theorem passwordRegex_test_iff (s : List Nat) :
    test LoginScreen.passwordRegex s = true ↔
      8 ≤ s.length ∧ (∀ c ∈ s, isLineTerminator c = false) ∧
        (∃ c ∈ s, lowerCase c = true) ∧ (∃ c ∈ s, upperCase c = true) ∧
        (∃ c ∈ s, digit c = true) ∧ (∃ c ∈ s, special c = true) := by
  rw [passwordRegex_test_eq, passwordRegex_run_iff]

theorem emailRegex_test_iff_containsAddress (s : List Nat) :
    test LoginScreen.emailRegex s = true ↔ ContainsAddress s := by
  rw [emailRegex_test_iff]
  unfold ContainsAddress
  have hlen : ∀ l : List Nat, 1 ≤ l.length ↔ l ≠ [] := by
    intro l
    cases l <;> simp
  have hws : ∀ l : List Nat,
      (∀ c ∈ l, nonWhiteSpace c = true) ↔ ∀ c ∈ l, isWhiteSpace c = false := by
    intro l
    simp [nonWhiteSpace]
  constructor
  · rintro ⟨pre, u, v, w, post, hs, hu, hul, hv, hvl, hw, hwl⟩
    exact ⟨pre, u, v, w, post, by rw [hs]; simp, (hlen u).mp hul, (hlen v).mp hvl,
      (hlen w).mp hwl, (hws u).mp hu, (hws v).mp hv, (hws w).mp hw⟩
  · rintro ⟨pre, u, v, w, post, hs, hul, hvl, hwl, hu, hv, hw⟩
    exact ⟨pre, u, v, w, post, by rw [hs]; simp, (hws u).mpr hu, (hlen u).mpr hul,
      (hws v).mpr hv, (hlen v).mpr hvl, (hws w).mpr hw, (hlen w).mpr hwl⟩

theorem signUp_emailRegex_eq : SignUpScreen.emailRegex = LoginScreen.emailRegex := rfl

theorem signUp_passwordRegex_eq : SignUpScreen.passwordRegex = LoginScreen.passwordRegex := rfl

theorem forgot_passwordRegex_eq :
    ForgotPasswordScreen.passwordRegex = LoginScreen.passwordRegex := rfl

end RegExp

/-! ## The session refers to a registered object -/

namespace AuthContext

theorem currentUser_mem_users_step (toLowerCase : String → String) (s : AuthState) (c : Call)
    (h : ∀ r ∈ s.currentUser, r ∈ s.users) :
    ∀ r ∈ (step toLowerCase s c).currentUser, r ∈ (step toLowerCase s c).users := by
  cases c with
  | signUp f l e p now =>
    show ∀ r ∈ (signUp toLowerCase s f l e p now).2.currentUser,
      r ∈ (signUp toLowerCase s f l e p now).2.users
    cases hf : s.users.find? (refMatches toLowerCase s.heap e) with
    | some r0 => rw [signUp_of_some toLowerCase s f l e p now r0 hf]; exact h
    | none =>
      rw [signUp_of_none toLowerCase s f l e p now hf]
      intro r hr
      exact List.mem_append_left _ (h r hr)
  | login e p =>
    show ∀ r ∈ (login toLowerCase s e p).2.currentUser, r ∈ (login toLowerCase s e p).2.users
    cases hf : s.users.find? (refMatches toLowerCase s.heap e) with
    | none => rw [login_of_none toLowerCase s e p hf]; exact h
    | some r0 =>
      obtain ⟨u, hu, -⟩ := refMatches_deref toLowerCase (List.find?_some hf)
      rw [login_of_some toLowerCase s e p r0 u hf hu]
      by_cases hp : u.password ≠ p
      · rw [if_pos hp]; exact h
      · rw [if_neg hp]
        intro r hr
        have hr0 : r0 = r := by simpa using hr
        exact hr0 ▸ List.mem_of_find?_eq_some hf
  | logout =>
    intro r hr
    simp [step, logout] at hr
  | resetPassword e p =>
    show ∀ r ∈ (resetPassword toLowerCase s e p).2.currentUser,
      r ∈ (resetPassword toLowerCase s e p).2.users
    cases hf : s.users.find? (refMatches toLowerCase s.heap e) with
    | none => rw [resetPassword_of_none toLowerCase s e p hf]; exact h
    | some r0 => rw [resetPassword_of_some toLowerCase s e p r0 hf]; exact h

theorem currentUser_mem_users_run (toLowerCase : String → String) (calls : List Call) :
    ∀ r ∈ (run toLowerCase initial calls).currentUser,
      r ∈ (run toLowerCase initial calls).users :=
  run_invariant toLowerCase (fun s => ∀ r ∈ s.currentUser, r ∈ s.users)
    (currentUser_mem_users_step toLowerCase) calls initial (by simp [initial])

theorem session_mem_registry (s : AuthState) (h : ∀ r ∈ s.currentUser, r ∈ s.users)
    (u : User) (hu : session s = some u) : u ∈ registry s := by
  unfold session at hu
  cases hc : s.currentUser with
  | none => simp [hc] at hu
  | some r =>
    rw [hc] at hu
    exact List.mem_filterMap.mpr ⟨r, h r hc, hu⟩

theorem signUp_true_find? (toLowerCase : String → String) (s : AuthState)
    (f l e p : String) (now : Nat) (h : (signUp toLowerCase s f l e p now).1 = true) :
    s.users.find? (refMatches toLowerCase s.heap e) = none := by
  cases hf : s.users.find? (refMatches toLowerCase s.heap e) with
  | none => rfl
  | some r =>
    rw [signUp_of_some toLowerCase s f l e p now r hf] at h
    exact Bool.noConfusion h

theorem signUp_false_eq (toLowerCase : String → String) (s : AuthState)
    (f l e p : String) (now : Nat) (h : (signUp toLowerCase s f l e p now).1 = false) :
    (signUp toLowerCase s f l e p now).2 = s := by
  cases hf : s.users.find? (refMatches toLowerCase s.heap e) with
  | some r => rw [signUp_of_some toLowerCase s f l e p now r hf]
  | none =>
    rw [signUp_of_none toLowerCase s f l e p now hf] at h
    exact Bool.noConfusion h

theorem resetPassword_false_eq (toLowerCase : String → String) (s : AuthState)
    (e p : String) (h : (resetPassword toLowerCase s e p).1 = false) :
    (resetPassword toLowerCase s e p).2 = s := by
  cases hf : s.users.find? (refMatches toLowerCase s.heap e) with
  | none => rw [resetPassword_of_none toLowerCase s e p hf]
  | some r =>
    rw [resetPassword_of_some toLowerCase s e p r hf] at h
    exact Bool.noConfusion h

theorem resetPassword_true_registry (toLowerCase : String → String) (s : AuthState)
    (e p : String) (hs : WellFormed s) (h : (resetPassword toLowerCase s e p).1 = true) :
    ∃ i u, (registry s)[i]? = some u ∧
      registry (resetPassword toLowerCase s e p).2 =
        (registry s).set i { u with password := p } := by
  cases hf : s.users.find? (refMatches toLowerCase s.heap e) with
  | none =>
    rw [resetPassword_of_none toLowerCase s e p hf] at h
    exact Bool.noConfusion h
  | some r =>
    obtain ⟨u, hu, -⟩ := refMatches_deref toLowerCase (List.find?_some hf)
    exact ⟨_, u, (registry_first_match toLowerCase s e r u hf hu).2,
      registry_resetPassword toLowerCase s e p r u hs hf hu⟩

theorem registry_step_grows (toLowerCase : String → String) (s : AuthState) (c : Call)
    (hs : WellFormed s) :
    ∃ t, (registry (step toLowerCase s c)).map
        (fun u => (u.id, u.firstName, u.lastName, u.email)) =
      (registry s).map (fun u => (u.id, u.firstName, u.lastName, u.email)) ++ t := by
  cases c with
  | signUp f l e p now =>
    show ∃ t, (registry (signUp toLowerCase s f l e p now).2).map _ = _
    cases hf : s.users.find? (refMatches toLowerCase s.heap e) with
    | some r =>
      rw [signUp_of_some toLowerCase s f l e p now r hf]
      exact ⟨[], by simp⟩
    | none =>
      rw [registry_signUp toLowerCase s f l e p now hs hf, List.map_append]
      exact ⟨_, rfl⟩
  | login e p =>
    show ∃ t, (registry (login toLowerCase s e p).2).map _ = _
    rw [registry_login]
    exact ⟨[], by simp⟩
  | logout => exact ⟨[], by simp [step, registry_logout]⟩
  | resetPassword e p =>
    show ∃ t, (registry (resetPassword toLowerCase s e p).2).map _ = _
    rw [registry_resetPassword_map toLowerCase
      (fun u => (u.id, u.firstName, u.lastName, u.email)) (fun _ _ => rfl) s e p hs]
    exact ⟨[], by simp⟩

/-! ## The claims, continued -/

/-- C11. For every state, logged in or not, the current user is empty after
`logout`; `logout` is total, and a second `logout` changes nothing: `logout`
followed by `logout` yields the same state as a single `logout`.  The registry
is untouched. -/
theorem logout_clears_session (s : AuthState) :
    (logout s).currentUser = none ∧ session (logout s) = none ∧
      logout (logout s) = logout s ∧ registry (logout s) = registry s ∧
      session (logout sampleState) = none ∧ session sampleState ≠ none := by
  refine ⟨rfl, rfl, rfl, rfl, by decide, by decide⟩

/-- C15. In every state reached from the state at mount by a sequence of
`signUp`, `login`, `logout` and `resetPassword` calls, if the current user is
non-empty then the registry contains a user with the same id, names and e-mail
address: the object `currentUser` refers to is itself an entry of `users`. -/
theorem session_user_registered (toLowerCase : String → String) (calls : List Call)
    (u : User) (hu : session (run toLowerCase initial calls) = some u) :
    u ∈ registry (run toLowerCase initial calls) ∧
      ∃ v ∈ registry (run toLowerCase initial calls),
        v.id = u.id ∧ v.firstName = u.firstName ∧ v.lastName = u.lastName ∧
          v.email = u.email := by
  have hmem := session_mem_registry _ (currentUser_mem_users_run toLowerCase calls) u hu
  exact ⟨hmem, u, hmem, rfl, rfl, rfl, rfl⟩

/-- Witness for C15: after the sample session Ann is the current user, with the
password set by the reset, and she is the first entry of the registry. -/
theorem session_user_registered_witness :
    session (run asciiToLowerCase initial sampleCalls) =
        some { id := "1000", firstName := "Ann", lastName := "Lee", email := "ann@x.com",
               password := "Newpw1!" } ∧
      ∃ v ∈ registry (run asciiToLowerCase initial sampleCalls),
        v.id = "1000" ∧ v.firstName = "Ann" ∧ v.lastName = "Lee" ∧ v.email = "ann@x.com" :=
  ⟨by decide,
    (session_user_registered asciiToLowerCase sampleCalls
      { id := "1000", firstName := "Ann", lastName := "Lee", email := "ann@x.com",
        password := "Newpw1!" } (by decide)).2⟩

/-- C16. The registry changes only by a successful `signUp` (one user appended)
or a successful `resetPassword` (one password field changed): in every
well-formed state `login`, in all three branches, and `logout` leave the
registry exactly as it was, a failing `signUp` or `resetPassword` too, and no
call removes a user or shortens the registry (the ids, names and e-mail
addresses before the call head the list after it). -/
theorem registry_frame (toLowerCase : String → String) (s : AuthState) (hs : WellFormed s) :
    (∀ email password, registry (login toLowerCase s email password).2 = registry s) ∧
    registry (logout s) = registry s ∧
    (∀ firstName lastName email password now,
      ((signUp toLowerCase s firstName lastName email password now).1 = false →
        registry (signUp toLowerCase s firstName lastName email password now).2 =
          registry s) ∧
      ((signUp toLowerCase s firstName lastName email password now).1 = true →
        registry (signUp toLowerCase s firstName lastName email password now).2 =
          registry s ++ [{ id := toString now, firstName := firstName, lastName := lastName,
                           email := email, password := password }])) ∧
    (∀ email newPassword,
      ((resetPassword toLowerCase s email newPassword).1 = false →
        registry (resetPassword toLowerCase s email newPassword).2 = registry s) ∧
      ((resetPassword toLowerCase s email newPassword).1 = true →
        ∃ i u, (registry s)[i]? = some u ∧
          registry (resetPassword toLowerCase s email newPassword).2 =
            (registry s).set i { id := u.id, firstName := u.firstName,
                                 lastName := u.lastName, email := u.email,
                                 password := newPassword })) ∧
    (∀ c : Call,
      (registry s).length ≤ (registry (step toLowerCase s c)).length ∧
        ∃ t, (registry (step toLowerCase s c)).map
            (fun u => (u.id, u.firstName, u.lastName, u.email)) =
          (registry s).map (fun u => (u.id, u.firstName, u.lastName, u.email)) ++ t) := by
  refine ⟨fun e p => registry_login toLowerCase s e p, rfl, fun f l e p now => ⟨?_, ?_⟩,
    fun e p => ⟨?_, ?_⟩, fun c => ?_⟩
  · intro h
    rw [signUp_false_eq toLowerCase s f l e p now h]
  · intro h
    exact registry_signUp toLowerCase s f l e p now hs
      (signUp_true_find? toLowerCase s f l e p now h)
  · intro h
    rw [resetPassword_false_eq toLowerCase s e p h]
  · intro h
    exact resetPassword_true_registry toLowerCase s e p hs h
  · obtain ⟨t, ht⟩ := registry_step_grows toLowerCase s c hs
    refine ⟨?_, t, ht⟩
    have hlen := congrArg List.length ht
    simp only [List.length_map, List.length_append] at hlen
    omega

/-- Witness for C16: on the sample state a login leaves the two entries as they
are and any call leaves at least two entries. -/
theorem registry_frame_witness :
    WellFormed sampleState ∧ (registry sampleState).length = 2 ∧
      registry (login asciiToLowerCase sampleState "bob@x.com" "Efgh456#").2 =
        registry sampleState :=
  ⟨by decide, by decide,
    (registry_frame asciiToLowerCase sampleState (by decide)).1 "bob@x.com" "Efgh456#"⟩

/-- C17. The result of `login` does not depend on the prior session: for any
two states with the same store and registry but different current users,
`login` with the same e-mail address and password ends in the same branch, and
when it succeeds the states after it are equal, the current user being the
first registered user whose address matches.  On the sample state, where Ann is
logged in, Bob logs in and becomes the current user. -/
theorem login_ignores_session :
    (∀ (toLowerCase : String → String) (s : AuthState) (c1 c2 : Option Nat)
        (email password : String),
      (login toLowerCase { s with currentUser := c1 } email password).1 =
          (login toLowerCase { s with currentUser := c2 } email password).1 ∧
        ((login toLowerCase { s with currentUser := c1 } email password).1 =
            LoginOutcome.success →
          (login toLowerCase { s with currentUser := c1 } email password).2 =
              (login toLowerCase { s with currentUser := c2 } email password).2 ∧
            session (login toLowerCase { s with currentUser := c1 } email password).2 =
              (registry s).find? (fun v => toLowerCase v.email == toLowerCase email))) ∧
      (session sampleState).map User.email = some "ann@x.com" ∧
      (login asciiToLowerCase sampleState "bob@x.com" "Efgh456#").1 = LoginOutcome.success ∧
      (session (login asciiToLowerCase sampleState "bob@x.com" "Efgh456#").2).map User.email =
        some "bob@x.com" := by
  refine ⟨?_, by decide, by decide, by decide⟩
  intro toLowerCase s c1 c2 e p
  cases hf : s.users.find? (refMatches toLowerCase s.heap e) with
  | none =>
    rw [login_of_none toLowerCase { s with currentUser := c1 } e p hf,
      login_of_none toLowerCase { s with currentUser := c2 } e p hf]
    exact ⟨rfl, fun h => LoginOutcome.noConfusion h⟩
  | some r =>
    obtain ⟨u, hu, -⟩ := refMatches_deref toLowerCase (List.find?_some hf)
    rw [login_of_some toLowerCase { s with currentUser := c1 } e p r u hf hu,
      login_of_some toLowerCase { s with currentUser := c2 } e p r u hf hu]
    by_cases hp : u.password ≠ p
    · rw [if_pos hp, if_pos hp]
      exact ⟨rfl, fun h => LoginOutcome.noConfusion h⟩
    · rw [if_neg hp, if_neg hp]
      refine ⟨rfl, fun _ => ⟨rfl, ?_⟩⟩
      have h1 := (registry_first_match toLowerCase s e r u hf hu).1
      change (registry s).find? (emailMatches toLowerCase e) = some u at h1
      change _ = (registry s).find? (emailMatches toLowerCase e)
      rw [h1]
      exact hu

end AuthContext

/-! ## The format checks of the screens -/

namespace Screens

open RegExp

theorem handleLogin_call (email password : String) (args : String × String)
    (h : LoginScreen.handleLogin email password = HandlerResult.call args) :
    args = (email, password) ∧ test LoginScreen.emailRegex (codeUnits email) = true ∧
      test LoginScreen.passwordRegex (codeUnits password) = true := by
  unfold LoginScreen.handleLogin at h
  cases h1 : test LoginScreen.emailRegex (codeUnits email) with
  | false => simp [h1] at h
  | true =>
    cases h2 : test LoginScreen.passwordRegex (codeUnits password) with
    | false => simp [h1, h2] at h
    | true =>
      simp [h1, h2] at h
      exact ⟨h.symm, rfl, rfl⟩

theorem handleLogin_of_checks (email password : String)
    (h1 : test LoginScreen.emailRegex (codeUnits email) = true)
    (h2 : test LoginScreen.passwordRegex (codeUnits password) = true) :
    LoginScreen.handleLogin email password = HandlerResult.call (email, password) := by
  unfold LoginScreen.handleLogin
  simp [h1, h2]

theorem handleSignUp_call (firstName lastName email password confirmPassword : String)
    (args : String × String × String × String)
    (h : SignUpScreen.handleSignUp firstName lastName email password confirmPassword =
      HandlerResult.call args) :
    args = (firstName, lastName, email, password) ∧
      test SignUpScreen.emailRegex (codeUnits email) = true ∧
      test SignUpScreen.passwordRegex (codeUnits password) = true := by
  unfold SignUpScreen.handleSignUp at h
  split at h
  · exact HandlerResult.noConfusion h
  · split at h
    · exact HandlerResult.noConfusion h
    · cases h1 : test SignUpScreen.emailRegex (codeUnits email) with
      | false => simp [h1] at h
      | true =>
        cases h2 : test SignUpScreen.passwordRegex (codeUnits password) with
        | false => simp [h1, h2] at h
        | true =>
          simp [h1, h2] at h
          exact ⟨h.symm, rfl, rfl⟩

theorem handleResetPassword_call (email newPassword confirmPassword : String)
    (args : String × String)
    (h : ForgotPasswordScreen.handleResetPassword email newPassword confirmPassword =
      HandlerResult.call args) :
    args = (email, newPassword) ∧
      test ForgotPasswordScreen.passwordRegex (codeUnits newPassword) = true := by
  unfold ForgotPasswordScreen.handleResetPassword at h
  split at h
  · exact HandlerResult.noConfusion h
  · cases h2 : test ForgotPasswordScreen.passwordRegex (codeUnits newPassword) with
    | false => simp [h2] at h
    | true =>
      simp only [h2, Bool.not_true] at h
      split at h
      · exact (Bool.noConfusion (by assumption))
      · split at h
        · exact HandlerResult.noConfusion h
        · exact ⟨(HandlerResult.call.inj h).symm, rfl⟩

/-- Counterexample to C12 as stated: `"a b@c@d.e"` passes `emailRegex.test`
although it holds a space and two `@`, so the check does not require that the
whole string be free of whitespace with exactly one `@`. -/
theorem emailRegex_whole_string_counterexample :
    ¬ ∀ s : List Nat, test LoginScreen.emailRegex s = true ↔
      ((∃ u v w, s = u ++ [64] ++ v ++ [46] ++ w ∧ u ≠ [] ∧ v ≠ [] ∧ w ≠ [] ∧
          (∀ c ∈ u, isWhiteSpace c = false) ∧ (∀ c ∈ v, isWhiteSpace c = false) ∧
          (∀ c ∈ w, isWhiteSpace c = false)) ∧
        s.count 64 = 1 ∧ ∀ c ∈ s, isWhiteSpace c = false) := by
  intro h
  have h1 := ((h (codeUnits "a b@c@d.e")).mp (by decide)).2.1
  revert h1
  decide

/-- C12, amended. For every string `s`, the e-mail format check of the login
and sign-up screens, `emailRegex.test(s)`, returns `true` exactly when `s`
contains somewhere a block made of one or more non-whitespace characters, then
`@`, then one or more non-whitespace characters, then `.`, then one or more
non-whitespace characters.  Text around the block, whitespace included, and
further `@` characters are accepted. -/
theorem emailRegex_test_iff_contains_block :
    (∀ s : List Nat,
      (test LoginScreen.emailRegex s = true ↔ ContainsAddress s) ∧
        (test SignUpScreen.emailRegex s = true ↔ ContainsAddress s)) ∧
      test LoginScreen.emailRegex (codeUnits "ann@x.com") = true ∧
      test LoginScreen.emailRegex (codeUnits "ann@x") = false ∧
      test LoginScreen.emailRegex (codeUnits "ann @x.com") = false ∧
      test LoginScreen.emailRegex (codeUnits "a b@c@d.e") = true := by
  refine ⟨fun s => ⟨emailRegex_test_iff_containsAddress s, ?_⟩, by decide, by decide,
    by decide, by decide⟩
  rw [signUp_emailRegex_eq]
  exact emailRegex_test_iff_containsAddress s

/-- Counterexample to C13 as stated: `"Abcd123!"` followed by a line feed has
nine code units and holds a lower-case letter, an upper-case letter, a digit
and `!`, yet `passwordRegex.test` rejects it, because `.` does not match a line
terminator. -/
theorem passwordRegex_line_terminator_counterexample :
    ¬ ∀ s : List Nat, test LoginScreen.passwordRegex s = true ↔
      (8 ≤ s.length ∧ (∃ c ∈ s, lowerCase c = true) ∧ (∃ c ∈ s, upperCase c = true) ∧
        (∃ c ∈ s, digit c = true) ∧ (∃ c ∈ s, special c = true)) := by
  intro h
  have h1 := (h (codeUnits "Abcd123!\n")).mpr (by decide)
  revert h1
  decide

/-- C13, amended. For every string `s`, the password strength check of the
three screens, `passwordRegex.test(s)`, returns `true` exactly when `s` has
length at least 8 (in UTF-16 code units), contains no line terminator (LF, CR,
U+2028, U+2029), and contains at least one lower-case letter a-z, one
upper-case letter A-Z, one digit 0-9 and one of `! @ # $ % ^ & *`.  It is
`true` for `"Abcd123!"` and `false` for `"abcd123!"` and `"Abcdefg!"`. -/
theorem passwordRegex_test_iff_strong :
    (∀ s : List Nat,
      (test LoginScreen.passwordRegex s = true ↔ StrongPassword s) ∧
        (test SignUpScreen.passwordRegex s = true ↔ StrongPassword s) ∧
        (test ForgotPasswordScreen.passwordRegex s = true ↔ StrongPassword s)) ∧
      test LoginScreen.passwordRegex (codeUnits "Abcd123!") = true ∧
      test LoginScreen.passwordRegex (codeUnits "abcd123!") = false ∧
      test LoginScreen.passwordRegex (codeUnits "Abcdefg!") = false := by
  refine ⟨fun s => ⟨passwordRegex_test_iff s, ?_, ?_⟩, by decide, by decide, by decide⟩
  · rw [signUp_passwordRegex_eq]; exact passwordRegex_test_iff s
  · rw [forgot_passwordRegex_eq]; exact passwordRegex_test_iff s

/-- C14, on the code. The handlers `handleLogin` and `handleSignUp` call
`login` and `signUp` only when the e-mail address passes the e-mail format
check and the password passes the strength check, and `handleResetPassword`
calls `resetPassword` only when the new password passes the strength check;
but `handleResetPassword` runs no e-mail format check: with the address `"x"`
and the password `"Abcd123!"` entered twice it calls `resetPassword("x",
"Abcd123!")`, although `"x"` fails the e-mail format check of the other two
screens. -/
theorem handleResetPassword_skips_email_check :
    (∀ email password args,
      LoginScreen.handleLogin email password = HandlerResult.call args →
        test LoginScreen.emailRegex (codeUnits email) = true ∧
          test LoginScreen.passwordRegex (codeUnits password) = true) ∧
    (∀ firstName lastName email password confirmPassword args,
      SignUpScreen.handleSignUp firstName lastName email password confirmPassword =
          HandlerResult.call args →
        test SignUpScreen.emailRegex (codeUnits email) = true ∧
          test SignUpScreen.passwordRegex (codeUnits password) = true) ∧
    (∀ email newPassword confirmPassword args,
      ForgotPasswordScreen.handleResetPassword email newPassword confirmPassword =
          HandlerResult.call args →
        test ForgotPasswordScreen.passwordRegex (codeUnits newPassword) = true) ∧
    ForgotPasswordScreen.handleResetPassword "x" "Abcd123!" "Abcd123!" =
      HandlerResult.call ("x", "Abcd123!") ∧
    test LoginScreen.emailRegex (codeUnits "x") = false ∧
    test SignUpScreen.emailRegex (codeUnits "x") = false := by
  refine ⟨fun e p args h => (handleLogin_call e p args h).2,
    fun f l e p c args h => (handleSignUp_call f l e p c args h).2,
    fun e p c args h => (handleResetPassword_call e p c args h).2,
    by decide, by decide, by decide⟩

/-- Counterexample to C18 as stated: the password `"Abcd123^"` passes the
password format check of the login screen, and `handleLogin` goes on to
`login`, although it contains none of the characters `!@#$%` that the "Invalid
Password Format" message lists as the required special characters. -/
theorem login_check_listed_special_counterexample :
    ¬ ∀ s : List Nat, test LoginScreen.passwordRegex s = true →
      ∃ c ∈ s, c ∈ LoginScreen.listedSpecials := by
  intro h
  have h1 := h (codeUnits "Abcd123^") (by decide)
  revert h1
  decide

/-- C18, amended. For every password string, the password format check of the
login screen accepts it only if it contains one of the special characters
`! @ # $ % ^ & *` of the pattern's class, the same class as in the other two
screens; the characters `!@#$%` that the "Invalid Password Format" message
lists are five of these eight. -/
theorem login_check_requires_pattern_special (s : List Nat)
    (h : test LoginScreen.passwordRegex s = true) :
    (∃ c ∈ s, c ∈ codeUnits "!@#$%^&*") ∧
      (∀ c ∈ LoginScreen.listedSpecials, c ∈ codeUnits "!@#$%^&*") ∧
      ("One special character (!@#$%)".data).isSuffixOf
        LoginScreen.invalidPasswordFormatMessage.data = true := by
  have hcu : codeUnits "!@#$%^&*" = [33, 64, 35, 36, 37, 94, 38, 42] := by decide
  refine ⟨?_, by decide, by decide⟩
  obtain ⟨c, hc, hsp⟩ := ((passwordRegex_test_iff s).mp h).2.2.2.2.2
  refine ⟨c, hc, ?_⟩
  rw [hcu]
  simp only [special, Bool.or_eq_true, beq_iff_eq] at hsp
  simp only [List.mem_cons, List.mem_singleton]
  tauto

/-- Witness for C18: `"Abcd123^"` is accepted and `^` is its special
character. -/
theorem login_check_requires_pattern_special_witness :
    test LoginScreen.passwordRegex (codeUnits "Abcd123^") = true ∧
      LoginScreen.handleLogin "ann@x.com" "Abcd123^" =
        HandlerResult.call ("ann@x.com", "Abcd123^") ∧
      ∃ c ∈ codeUnits "Abcd123^", c ∈ codeUnits "!@#$%^&*" :=
  ⟨by decide, by decide,
    (login_check_requires_pattern_special (codeUnits "Abcd123^") (by decide)).1⟩

/-- C19. The format gates of the three screens agree: every e-mail address and
password with which `handleSignUp` reaches `signUp` pass both format checks of
`handleLogin`, so `handleLogin` reaches `login` with them, and every new
password with which `handleResetPassword` reaches `resetPassword` passes the
password check of `handleLogin`. -/
theorem screen_gates_agree :
    (∀ firstName lastName email password confirmPassword args,
      SignUpScreen.handleSignUp firstName lastName email password confirmPassword =
          HandlerResult.call args →
        args = (firstName, lastName, email, password) ∧
          test LoginScreen.emailRegex (codeUnits email) = true ∧
          test LoginScreen.passwordRegex (codeUnits password) = true ∧
          LoginScreen.handleLogin email password = HandlerResult.call (email, password)) ∧
    (∀ email newPassword confirmPassword args,
      ForgotPasswordScreen.handleResetPassword email newPassword confirmPassword =
          HandlerResult.call args →
        args = (email, newPassword) ∧
          test LoginScreen.passwordRegex (codeUnits newPassword) = true) ∧
    SignUpScreen.handleSignUp "Ann" "Lee" "ann@x.com" "Abcd123!" "Abcd123!" =
      HandlerResult.call ("Ann", "Lee", "ann@x.com", "Abcd123!") ∧
    LoginScreen.handleLogin "ann@x.com" "Abcd123!" =
      HandlerResult.call ("ann@x.com", "Abcd123!") ∧
    ForgotPasswordScreen.handleResetPassword "ann@x.com" "Newpw12!" "Newpw12!" =
      HandlerResult.call ("ann@x.com", "Newpw12!") := by
  refine ⟨fun f l e p c args h => ?_, fun e p c args h => ?_, by decide, by decide,
    by decide⟩
  · obtain ⟨h0, h1, h2⟩ := handleSignUp_call f l e p c args h
    rw [signUp_emailRegex_eq] at h1
    rw [signUp_passwordRegex_eq] at h2
    exact ⟨h0, h1, h2, handleLogin_of_checks e p h1 h2⟩
  · obtain ⟨h0, h2⟩ := handleResetPassword_call e p c args h
    rw [forgot_passwordRegex_eq] at h2
    exact ⟨h0, h2⟩

end Screens
